import Mathlib

set_option maxHeartbeats 1000000

/-!
Verification development for the ergo deterministic event-driven graph runtime.

Part 1 models the supervisor (crates/supervisor/src/lib.rs, replay.rs,
capture.rs) and its adapter-side data (crates/adapter/src/lib.rs, capture.rs).
`Duration` and `EventTime` are modelled as `Nat` (the supervisor only ever
compares, saturating-subtracts and saturating-adds them; `Nat` subtraction is
saturating subtraction). A runtime invoker whose termination output depends
only on `(event_id, invocation index)` is modelled as a function
`String → Nat → RunTermination`; the supervisor state threads a per-event-id
call counter that supplies the invocation index at each `run` call.
-/

namespace Ergo

inductive ErrKind
  | NetworkTimeout
  | AdapterUnavailable
  | ValidationFailed
  | RuntimeError
  | DeadlineExceeded
  | Cancelled
deriving DecidableEq, Repr

inductive RunTermination
  | Completed
  | TimedOut
  | Aborted
  | Failed (err : ErrKind)
deriving DecidableEq, Repr

inductive Decision
  | Invoke
  | Skip
  | Defer
deriving DecidableEq, Repr

structure Constraints where
  max_in_flight : Option Nat
  max_per_window : Option Nat
  rate_window : Option Nat
  deadline : Option Nat
  max_retries : Nat
deriving DecidableEq, Repr

/-- The supervisor reads only `event_id` and `at` from an external event
(the payload, kind and execution context never influence a decision). -/
structure ExternalEvent where
  event_id : String
  at_time : Nat
deriving DecidableEq, Repr

structure EpisodeInvocationRecord where
  event_id : String
  decision : Decision
  schedule_at : Option Nat
  episode_id : Nat
  deadline : Option Nat
  termination : RunTermination
  retry_count : Nat
deriving DecidableEq, Repr

structure ExternalEventRecord where
  event_id : String
  event_time : Nat
deriving DecidableEq, Repr

structure CaptureBundle where
  graph_id : String
  config : Constraints
  events : List ExternalEventRecord
  decisions : List EpisodeInvocationRecord

/-- Abstract runtime invoker: termination depends only on the event id and the
invocation index (how many `run` calls this event id has already received). -/
def Runtime : Type := String → Nat → RunTermination

structure SupervisorState where
  next_episode_id : Nat
  in_flight : Nat
  recent_invocations : List Nat
  clock : Nat
  counts : String → Nat

def should_retry : RunTermination → Bool
  | .Failed err =>
    match err with
    | .NetworkTimeout => true
    | .AdapterUnavailable => true
    | .RuntimeError => true
    | _ => false
  | .TimedOut => true
  | _ => false

/-- The retry loop of `Supervisor::invoke_with_retries`: while fewer than
`max_retries` re-invocations have happened and the current termination is
retryable, invoke again.  `c` is the next invocation index for this event id,
`t` the current termination, `attempts` the re-invocations so far; the budget
counts the remaining permitted re-invocations. -/
def retry_go (rt : Runtime) (eid : String) : Nat → Nat → RunTermination → Nat →
    RunTermination × Nat × Nat
  | 0, c, t, attempts => (t, attempts, c)
  | budget + 1, c, t, attempts =>
    if should_retry t then retry_go rt eid budget (c + 1) (rt eid c) (attempts + 1)
    else (t, attempts, c)

def invoke_with_retries (rt : Runtime) (eid : String) (max_retries c : Nat) :
    RunTermination × Nat × Nat :=
  retry_go rt eid max_retries (c + 1) (rt eid c) 0

def is_concurrency_saturated (cfg : Constraints) (in_flight : Nat) : Bool :=
  match cfg.max_in_flight with
  | some m => decide (m ≤ in_flight)
  | none => false

/-- Head eviction loop of `rate_limit_delay`: pop entries from the front while
their age (`now - front`, saturating) has reached the window. -/
def evict_expired (window now : Nat) : List Nat → List Nat
  | [] => []
  | front :: rest =>
    if window ≤ now - front then evict_expired window now rest else front :: rest

/-- `Supervisor::rate_limit_delay`, returning the updated queue together with
the optional delay (the Rust method mutates `recent_invocations` in place). -/
def rate_limit_delay (cfg : Constraints) (recent : List Nat) (now : Nat) :
    List Nat × Option Nat :=
  match cfg.max_per_window, cfg.rate_window with
  | some max_per_window, some window =>
    let q := evict_expired window now recent
    if max_per_window ≤ q.length then
      match q with
      | front :: _ => (q, some (window - (now - front)))
      | [] => (q, none)
    else (q, none)
  | _, _ => (recent, none)

def log_entry (cfg : Constraints) (ev : ExternalEvent) (decision : Decision)
    (schedule_at : Option Nat) (episode_id : Nat) (termination : RunTermination)
    (retry_count : Nat) : EpisodeInvocationRecord :=
  { event_id := ev.event_id
    decision := decision
    schedule_at := schedule_at
    episode_id := episode_id
    deadline := cfg.deadline
    termination := termination
    retry_count := retry_count }

/-- `Supervisor::on_event`. -/
def on_event (cfg : Constraints) (rt : Runtime) (st : SupervisorState)
    (ev : ExternalEvent) : SupervisorState × EpisodeInvocationRecord :=
  let now := max st.clock ev.at_time
  let episode_id := st.next_episode_id
  let st1 : SupervisorState :=
    { st with clock := now, next_episode_id := st.next_episode_id + 1 }
  if is_concurrency_saturated cfg st1.in_flight then
    (st1, log_entry cfg ev .Defer (some now) episode_id .Aborted 0)
  else
    match rate_limit_delay cfg st1.recent_invocations now with
    | (q, some delay) =>
      ({ st1 with recent_invocations := q },
        log_entry cfg ev .Defer (some (now + delay)) episode_id .Aborted 0)
    | (q, none) =>
      let st2 : SupervisorState :=
        { st1 with
            in_flight := st1.in_flight + 1
            recent_invocations :=
              if cfg.max_per_window.isSome ∧ cfg.rate_window.isSome then q ++ [now]
              else q }
      let r := invoke_with_retries rt ev.event_id cfg.max_retries (st2.counts ev.event_id)
      let st3 : SupervisorState :=
        { st2 with
            in_flight := st2.in_flight - 1
            counts := fun i => if i = ev.event_id then r.2.2 else st2.counts i }
      (st3, log_entry cfg ev .Invoke none episode_id r.1 r.2.1)

def initial_state : SupervisorState :=
  { next_episode_id := 0
    in_flight := 0
    recent_invocations := []
    clock := 0
    counts := fun _ => 0 }

def run_supervisor (cfg : Constraints) (rt : Runtime) (events : List ExternalEvent) :
    List EpisodeInvocationRecord :=
  (events.foldl
    (fun acc ev =>
      let r := on_event cfg rt acc.1 ev
      (r.1, acc.2 ++ [r.2]))
    (initial_state, [])).2

/-- `ExternalEventRecord::rehydrate` (payload/kind/context do not reach any
supervisor decision and are not modelled). -/
def rehydrate (r : ExternalEventRecord) : ExternalEvent :=
  { event_id := r.event_id, at_time := r.event_time }

/-- `ExternalEventRecord::from_event`. -/
def from_event (ev : ExternalEvent) : ExternalEventRecord :=
  { event_id := ev.event_id, event_time := ev.at_time }

/-- `replay` (crates/supervisor/src/replay.rs): build a fresh supervisor from
the bundle's config and feed each rehydrated event in order. -/
def replay (bundle : CaptureBundle) (rt : Runtime) : List EpisodeInvocationRecord :=
  run_supervisor bundle.config rt (bundle.events.map rehydrate)

/-- A capturing session (crates/supervisor/src/capture.rs): records each
incoming event and every logged decision into a bundle. -/
def capture_session (graph_id : String) (cfg : Constraints) (rt : Runtime)
    (events : List ExternalEvent) : CaptureBundle :=
  { graph_id := graph_id
    config := cfg
    events := events.map from_event
    decisions := run_supervisor cfg rt events }

theorem rehydrate_from_event (ev : ExternalEvent) : rehydrate (from_event ev) = ev := rfl

theorem map_rehydrate_from_event (l : List ExternalEvent) :
    (l.map from_event).map rehydrate = l := by
  induction l with
  | nil => rfl
  | cons e rest ih => simp [ih, rehydrate_from_event]

/-- C1: Replay equivalence — for every `CaptureBundle` B and runtimes R, R'
whose termination output depends only on `(event_id, invocation index)` and
that agree on every such pair, `replay(B, R) = replay(B, R')`; and replaying a
captured bundle with a runtime producing the same per-event termination
sequence as the captured run yields invocation records identical to
`B.decisions`. -/
theorem c1_replay_equivalence :
    (∀ (bundle : CaptureBundle) (r r' : Runtime),
      (∀ id i, r id i = r' id i) → replay bundle r = replay bundle r')
    ∧ (∀ (gid : String) (cfg : Constraints) (rt : Runtime) (events : List ExternalEvent),
      replay (capture_session gid cfg rt events) rt
        = (capture_session gid cfg rt events).decisions) := by
  constructor
  · intro bundle r r' h
    have hr : r = r' := funext fun id => funext fun i => h id i
    rw [hr]
  · intro gid cfg rt events
    show run_supervisor cfg rt ((events.map from_event).map rehydrate)
      = run_supervisor cfg rt events
    rw [map_rehydrate_from_event]

def c1_bundle : CaptureBundle :=
  capture_session "g" ⟨none, none, none, none, 0⟩ (fun _ _ => .Completed)
    [⟨"e1", 0⟩, ⟨"e2", 5⟩]

theorem c1_replay_equivalence_witness :
    replay c1_bundle (fun _ _ => .Completed) = replay c1_bundle (fun _ _i => .Completed)
    ∧ replay c1_bundle (fun _ _ => .Completed) = c1_bundle.decisions :=
  ⟨c1_replay_equivalence.1 c1_bundle (fun _ _ => .Completed) (fun _ _i => .Completed)
      (fun _ _ => rfl),
    c1_replay_equivalence.2 "g" ⟨none, none, none, none, 0⟩ (fun _ _ => .Completed)
      [⟨"e1", 0⟩, ⟨"e2", 5⟩]⟩


/-! ### Characterization of the three `on_event` outcomes -/

theorem on_event_conc_defer (cfg : Constraints) (rt : Runtime) (st : SupervisorState)
    (ev : ExternalEvent)
    (hc : is_concurrency_saturated cfg st.in_flight = true) :
    on_event cfg rt st ev =
      ({ st with
          clock := max st.clock ev.at_time
          next_episode_id := st.next_episode_id + 1 },
        log_entry cfg ev .Defer (some (max st.clock ev.at_time)) st.next_episode_id
          .Aborted 0) := by
  simp only [on_event]
  rw [show is_concurrency_saturated cfg
      ({ st with
          clock := max st.clock ev.at_time
          next_episode_id := st.next_episode_id + 1 } : SupervisorState).in_flight
      = true from hc]
  simp

theorem on_event_rate_defer (cfg : Constraints) (rt : Runtime) (st : SupervisorState)
    (ev : ExternalEvent) (q : List Nat) (d : Nat)
    (hc : is_concurrency_saturated cfg st.in_flight = false)
    (hr : rate_limit_delay cfg st.recent_invocations (max st.clock ev.at_time)
      = (q, some d)) :
    on_event cfg rt st ev =
      ({ st with
          clock := max st.clock ev.at_time
          next_episode_id := st.next_episode_id + 1
          recent_invocations := q },
        log_entry cfg ev .Defer (some (max st.clock ev.at_time + d)) st.next_episode_id
          .Aborted 0) := by
  simp only [on_event]
  rw [show is_concurrency_saturated cfg
      ({ st with
          clock := max st.clock ev.at_time
          next_episode_id := st.next_episode_id + 1 } : SupervisorState).in_flight
      = false from hc]
  simp only [Bool.false_eq_true, if_false]
  rw [show rate_limit_delay cfg
      ({ st with
          clock := max st.clock ev.at_time
          next_episode_id := st.next_episode_id + 1 } : SupervisorState).recent_invocations
      (max st.clock ev.at_time) = (q, some d) from hr]

theorem on_event_invoke (cfg : Constraints) (rt : Runtime) (st : SupervisorState)
    (ev : ExternalEvent) (q : List Nat)
    (hc : is_concurrency_saturated cfg st.in_flight = false)
    (hr : rate_limit_delay cfg st.recent_invocations (max st.clock ev.at_time)
      = (q, none)) :
    on_event cfg rt st ev =
      (let now := max st.clock ev.at_time
       let r := invoke_with_retries rt ev.event_id cfg.max_retries (st.counts ev.event_id)
       ({ st with
          clock := now
          next_episode_id := st.next_episode_id + 1
          in_flight := st.in_flight + 1 - 1
          recent_invocations :=
            if cfg.max_per_window.isSome ∧ cfg.rate_window.isSome then q ++ [now] else q
          counts := fun i => if i = ev.event_id then r.2.2 else st.counts i },
        log_entry cfg ev .Invoke none st.next_episode_id r.1 r.2.1)) := by
  simp only [on_event]
  rw [show is_concurrency_saturated cfg
      ({ st with
          clock := max st.clock ev.at_time
          next_episode_id := st.next_episode_id + 1 } : SupervisorState).in_flight
      = false from hc]
  simp only [Bool.false_eq_true, if_false]
  rw [show rate_limit_delay cfg
      ({ st with
          clock := max st.clock ev.at_time
          next_episode_id := st.next_episode_id + 1 } : SupervisorState).recent_invocations
      (max st.clock ev.at_time) = (q, none) from hr]

theorem rate_limit_delay_some (cfg : Constraints) (recent : List Nat) (now : Nat)
    (q : List Nat) (d : Nat) (h : rate_limit_delay cfg recent now = (q, some d)) :
    ∃ m w, cfg.max_per_window = some m ∧ cfg.rate_window = some w
      ∧ q = evict_expired w now recent := by
  unfold rate_limit_delay at h
  cases hm : cfg.max_per_window with
  | none => rw [hm] at h; simp at h
  | some m =>
    cases hw : cfg.rate_window with
    | none => rw [hm, hw] at h; simp at h
    | some w =>
      rw [hm, hw] at h
      simp only at h
      refine ⟨m, w, rfl, rfl, ?_⟩
      by_cases hlen : m ≤ (evict_expired w now recent).length
      · rw [if_pos hlen] at h
        cases he : evict_expired w now recent with
        | nil => rw [he] at h; simp at h
        | cons f r =>
          rw [he] at h
          simp only [Prod.mk.injEq] at h
          exact (he ▸ h.1.symm : q = f :: r)
      · rw [if_neg hlen] at h
        simp only [Prod.mk.injEq] at h
        exact absurd h.2 (by simp)


/-! ### C5: retry policy -/

theorem retry_go_spec (rt : Runtime) (eid : String) :
    ∀ (b c0 k0 : Nat) (t : RunTermination) (k c' : Nat),
      retry_go rt eid b (c0 + 1) (rt eid c0) k0 = (t, k, c') →
      ∃ d, d ≤ b ∧ k = k0 + d ∧ c' = c0 + d + 1 ∧ t = rt eid (c0 + d)
        ∧ (∀ j < d, should_retry (rt eid (c0 + j)) = true)
        ∧ (d < b → should_retry t = false) := by
  intro b
  induction b with
  | zero =>
    intro c0 k0 t k c' h
    simp only [retry_go, Prod.mk.injEq] at h
    obtain ⟨rfl, rfl, rfl⟩ := h
    exact ⟨0, Nat.le_refl 0, by omega, by omega, by simp,
      fun j hj => absurd hj (by omega), fun h0 => absurd h0 (by omega)⟩
  | succ b ih =>
    intro c0 k0 t k c' h
    simp only [retry_go] at h
    by_cases hr : should_retry (rt eid c0) = true
    · rw [if_pos hr] at h
      obtain ⟨d, hd, hk, hc, ht, hall, hlast⟩ := ih (c0 + 1) (k0 + 1) t k c' h
      refine ⟨d + 1, by omega, by omega, by omega, ?_, ?_, ?_⟩
      · rw [ht]
        congr 1
        omega
      · intro j hj
        cases j with
        | zero => simpa using hr
        | succ j =>
          have := hall j (by omega)
          rwa [show c0 + 1 + j = c0 + (j + 1) by omega] at this
      · intro hlt
        exact hlast (by omega)
    · rw [if_neg hr] at h
      simp only [Prod.mk.injEq] at h
      obtain ⟨rfl, rfl, rfl⟩ := h
      exact ⟨0, by omega, by omega, by omega, by simp,
        fun j hj => absurd hj (by omega),
        fun _ => by simpa using hr⟩

def rt_s5 : Runtime := fun _ i => if i = 0 then .Failed .NetworkTimeout else .Completed

/-- C5: a termination is retryable exactly when it is TimedOut or
Failed(NetworkTimeout | AdapterUnavailable | RuntimeError); the supervisor
invokes once and re-invokes while the termination is retryable and fewer than
max_retries re-invocations have happened, recording the final termination and
the number of re-invocations; concretely (scenario S5) with max_retries = 1
and terminations Failed(NetworkTimeout) then Completed the logged entry is
Invoke with termination Completed and retry_count 1. -/
theorem c5_retry_policy :
    (∀ t, should_retry t = true ↔
      (t = RunTermination.TimedOut ∨ t = .Failed .NetworkTimeout
        ∨ t = .Failed .AdapterUnavailable ∨ t = .Failed .RuntimeError))
    ∧ (∀ (rt : Runtime) (eid : String) (m c : Nat) (t : RunTermination) (k c' : Nat),
        invoke_with_retries rt eid m c = (t, k, c') →
        k ≤ m ∧ t = rt eid (c + k) ∧ c' = c + k + 1
          ∧ (∀ j < k, should_retry (rt eid (c + j)) = true)
          ∧ (k < m → should_retry t = false))
    ∧ (∀ (cfg : Constraints) (rt : Runtime) (st : SupervisorState) (ev : ExternalEvent)
        (q : List Nat),
        is_concurrency_saturated cfg st.in_flight = false →
        rate_limit_delay cfg st.recent_invocations (max st.clock ev.at_time) = (q, none) →
        (on_event cfg rt st ev).2
          = log_entry cfg ev .Invoke none st.next_episode_id
            (invoke_with_retries rt ev.event_id cfg.max_retries
              (st.counts ev.event_id)).1
            (invoke_with_retries rt ev.event_id cfg.max_retries
              (st.counts ev.event_id)).2.1)
    ∧ run_supervisor ⟨none, none, none, none, 1⟩ rt_s5 [⟨"e1", 0⟩]
        = [⟨"e1", .Invoke, none, 0, none, .Completed, 1⟩] := by
  refine ⟨?_, ?_, ?_, ?_⟩
  · intro t
    rcases t with _ | _ | _ | err
    any_goals decide
    cases err <;> decide
  · intro rt eid m c t k c' h
    obtain ⟨d, hd, hk, hc, ht, hall, hlast⟩ := retry_go_spec rt eid m c 0 t k c' h
    subst hk
    exact ⟨by omega, by simpa using ht, by omega, fun j hj => hall j (by omega),
      fun hlt => hlast (by omega)⟩
  · intro cfg rt st ev q hc hr
    rw [on_event_invoke cfg rt st ev q hc hr]
  · rfl

theorem c5_retry_policy_witness :
    should_retry RunTermination.TimedOut = true
    ∧ (1 ≤ 1 ∧ RunTermination.Completed = rt_s5 "e1" (0 + 1) ∧ 2 = 0 + 1 + 1
      ∧ (∀ j < 1, should_retry (rt_s5 "e1" (0 + j)) = true)
      ∧ (1 < 1 → should_retry RunTermination.Completed = false)) :=
  ⟨(c5_retry_policy.1 RunTermination.TimedOut).mpr (Or.inl rfl),
    c5_retry_policy.2.1 rt_s5 "e1" 1 0 RunTermination.Completed 1 2 (by decide)⟩

/-! ### C4: rate guard -/

def rt_complete : Runtime := fun _ _ => .Completed

/-- C4 counterexample: with `max_per_window = Some 0` and `rate_window`
set, an event arriving with an empty (post-eviction) rate queue satisfies
every hypothesis of the claim (concurrency guard off, queue holds at least
`m = 0` entries after eviction), yet the supervisor logs Invoke, not Defer:
the code only defers when the evicted queue has a front entry. -/
theorem c4_rate_guard_counterexample :
    is_concurrency_saturated ⟨none, some 0, some 10, none, 0⟩ initial_state.in_flight = false
    ∧ evict_expired 10 (max initial_state.clock 0) initial_state.recent_invocations = []
    ∧ 0 ≤ ([] : List Nat).length
    ∧ (on_event ⟨none, some 0, some 10, none, 0⟩ rt_complete initial_state
        ⟨"e1", 0⟩).2.decision = Decision.Invoke
    ∧ Decision.Invoke ≠ Decision.Defer :=
  ⟨rfl, rfl, by decide, rfl, by decide⟩

/-- C4 (amended): when both rate settings are present, the concurrency guard
does not fire, and the head-evicted queue is nonempty with at least
`max_per_window` entries, `on_event` logs exactly one Defer entry with
`schedule_at = now + (window - (now - front))`, termination Aborted and
retry_count 0, and does not invoke the runtime; concretely (scenario S4)
three events at t = 0 with max_per_window = 2, rate_window = 10 log
Invoke, Invoke, then Defer with schedule_at = some 10. -/
theorem c4_rate_guard (cfg : Constraints) (rt : Runtime) (st : SupervisorState)
    (ev : ExternalEvent) (m w front : Nat) (rest : List Nat)
    (hm : cfg.max_per_window = some m) (hw : cfg.rate_window = some w)
    (hconc : is_concurrency_saturated cfg st.in_flight = false)
    (hq : evict_expired w (max st.clock ev.at_time) st.recent_invocations = front :: rest)
    (hlen : m ≤ (front :: rest).length) :
    (on_event cfg rt st ev).2
      = { event_id := ev.event_id
          decision := .Defer
          schedule_at := some (max st.clock ev.at_time
            + (w - (max st.clock ev.at_time - front)))
          episode_id := st.next_episode_id
          deadline := cfg.deadline
          termination := .Aborted
          retry_count := 0 }
    ∧ (on_event cfg rt st ev).1.counts = st.counts
    ∧ run_supervisor ⟨none, some 2, some 10, none, 0⟩ rt_complete
        [⟨"e1", 0⟩, ⟨"e2", 0⟩, ⟨"e3", 0⟩]
      = [⟨"e1", .Invoke, none, 0, none, .Completed, 0⟩,
         ⟨"e2", .Invoke, none, 1, none, .Completed, 0⟩,
         ⟨"e3", .Defer, some 10, 2, none, .Aborted, 0⟩] := by
  have hr : rate_limit_delay cfg st.recent_invocations (max st.clock ev.at_time)
      = (front :: rest, some (w - (max st.clock ev.at_time - front))) := by
    unfold rate_limit_delay
    rw [hm, hw]
    simp only [hq]
    rw [if_pos hlen]
  have hev := on_event_rate_defer cfg rt st ev (front :: rest)
    (w - (max st.clock ev.at_time - front)) hconc hr
  refine ⟨?_, ?_, rfl⟩
  · rw [hev]
    rfl
  · rw [hev]

theorem c4_rate_guard_witness :
    ((on_event ⟨none, some 1, some 10, none, 0⟩ rt_complete
        { initial_state with recent_invocations := [0] } ⟨"e2", 0⟩).2
      = { event_id := "e2"
          decision := .Defer
          schedule_at := some (max ({ initial_state with
              recent_invocations := [0] } : SupervisorState).clock 0
            + (10 - (max ({ initial_state with
              recent_invocations := [0] } : SupervisorState).clock 0 - 0)))
          episode_id := 0
          deadline := none
          termination := .Aborted
          retry_count := 0 })
    ∧ (on_event ⟨none, some 1, some 10, none, 0⟩ rt_complete
        { initial_state with recent_invocations := [0] } ⟨"e2", 0⟩).1.counts
      = ({ initial_state with recent_invocations := [0] } : SupervisorState).counts := by
  have h := c4_rate_guard ⟨none, some 1, some 10, none, 0⟩ rt_complete
    { initial_state with recent_invocations := [0] } ⟨"e2", 0⟩ 1 10 0 []
    rfl rfl rfl rfl (by decide)
  exact ⟨h.1, h.2.1⟩

/-! ### C10: Defer leaves guard state unchanged -/

/-- C10: whenever `on_event` logs a Defer decision the supervisor state at
return has the same `in_flight` counter and (up to head eviction, which
depends only on the clock and the rate window) the same rate queue as at
entry, the runtime was never invoked (call counters unchanged), and only the
clock and the episode counter advance. -/
theorem c10_defer_frame (cfg : Constraints) (rt : Runtime) (st : SupervisorState)
    (ev : ExternalEvent)
    (h : (on_event cfg rt st ev).2.decision = Decision.Defer) :
    (on_event cfg rt st ev).1.in_flight = st.in_flight
    ∧ (on_event cfg rt st ev).1.counts = st.counts
    ∧ (on_event cfg rt st ev).1.clock = max st.clock ev.at_time
    ∧ (on_event cfg rt st ev).1.next_episode_id = st.next_episode_id + 1
    ∧ ((on_event cfg rt st ev).1.recent_invocations = st.recent_invocations
      ∨ ∃ w, cfg.rate_window = some w
          ∧ (on_event cfg rt st ev).1.recent_invocations
            = evict_expired w (max st.clock ev.at_time) st.recent_invocations) := by
  by_cases hc : is_concurrency_saturated cfg st.in_flight = true
  · have hev := on_event_conc_defer cfg rt st ev hc
    rw [hev]
    exact ⟨rfl, rfl, rfl, rfl, Or.inl rfl⟩
  · have hc' : is_concurrency_saturated cfg st.in_flight = false := by
      simpa using hc
    rcases hrd : rate_limit_delay cfg st.recent_invocations (max st.clock ev.at_time) with
      ⟨q, dopt⟩
    cases dopt with
    | some d =>
      have hev := on_event_rate_defer cfg rt st ev q d hc' hrd
      obtain ⟨m, w, hm, hw, hqe⟩ := rate_limit_delay_some cfg st.recent_invocations
        (max st.clock ev.at_time) q d hrd
      rw [hev]
      exact ⟨rfl, rfl, rfl, rfl, Or.inr ⟨w, hw, hqe⟩⟩
    | none =>
      have hev := on_event_invoke cfg rt st ev q hc' hrd
      rw [hev] at h
      simp [log_entry] at h
  
theorem c10_defer_frame_witness :
    (on_event ⟨some 0, none, none, none, 0⟩ rt_complete initial_state
        ⟨"e1", 3⟩).1.in_flight = initial_state.in_flight
    ∧ (on_event ⟨some 0, none, none, none, 0⟩ rt_complete initial_state
        ⟨"e1", 3⟩).1.counts = initial_state.counts
    ∧ (on_event ⟨some 0, none, none, none, 0⟩ rt_complete initial_state
        ⟨"e1", 3⟩).1.clock = max initial_state.clock 3
    ∧ (on_event ⟨some 0, none, none, none, 0⟩ rt_complete initial_state
        ⟨"e1", 3⟩).1.next_episode_id = initial_state.next_episode_id + 1
    ∧ ((on_event ⟨some 0, none, none, none, 0⟩ rt_complete initial_state
        ⟨"e1", 3⟩).1.recent_invocations = initial_state.recent_invocations
      ∨ ∃ w, (⟨some 0, none, none, none, 0⟩ : Constraints).rate_window = some w
          ∧ (on_event ⟨some 0, none, none, none, 0⟩ rt_complete initial_state
              ⟨"e1", 3⟩).1.recent_invocations
            = evict_expired w (max initial_state.clock 3)
                initial_state.recent_invocations) :=
  c10_defer_frame ⟨some 0, none, none, none, 0⟩ rt_complete initial_state ⟨"e1", 3⟩ rfl


/-!
Part 2 models the cluster expander, signature inference and the declared
signature check (crates/runtime/src/cluster.rs).  Rust `HashMap`s are
modelled as association lists whose lookups take the first matching key;
insertion conses at the front, so first-match lookup coincides with
last-insert-wins `HashMap` semantics.  `HashMap::values()` iteration order is
the list order of the model.  The unbounded loader-driven recursion of
`expand_with_context` is modelled with an explicit fuel parameter (`none`
models divergence or a panic); the E.3 `debug_assert` is modelled as a fatal
check, also yielding `none`.  `f64` parameter payloads are carried as `Float`
but never interpreted.
-/

abbrev NodeId := String
abbrev Version := String

inductive ValueType
  | Number
  | Series
  | Bool
  | Event
  | String
deriving DecidableEq, Repr

inductive ParameterType
  | Int
  | Number
  | Bool
  | String
  | Enum
deriving DecidableEq, Repr

inductive ParameterValue
  | IntV (i : Int)
  | NumberV (x : Float)
  | BoolV (b : Bool)
  | StringV (s : String)
  | EnumV (s : String)

inductive PrimitiveKind
  | Source
  | Compute
  | Trigger
  | Action
deriving DecidableEq, Repr

inductive Cardinality
  | Single
  | Multiple
deriving DecidableEq, Repr

inductive BoundaryKind
  | SourceLike
  | ComputeLike
  | TriggerLike
  | ActionLike
deriving DecidableEq, Repr

structure OutputRef where
  node_id : NodeId
  port_name : String
deriving DecidableEq, Repr

structure InputRef where
  node_id : NodeId
  port_name : String
deriving DecidableEq, Repr

structure Edge where
  from_ : OutputRef
  to_ : InputRef
deriving DecidableEq, Repr

structure GraphInputPlaceholder where
  name : String
  ty : ValueType
  required : Bool
deriving DecidableEq, Repr

structure InputPortSpec where
  name : String
  maps_to : GraphInputPlaceholder
deriving DecidableEq, Repr

structure OutputPortSpec where
  name : String
  maps_to : OutputRef
deriving DecidableEq, Repr

structure ParameterSpec where
  name : String
  ty : ParameterType
  default : Option ParameterValue
  required : Bool

inductive ParameterBinding
  | Literal (value : ParameterValue)
  | Exposed (parent_param : String)

inductive NodeKind
  | Impl (impl_id : String) (version : Version)
  | Cluster (cluster_id : String) (version : Version)

structure NodeInstance where
  id : NodeId
  kind : NodeKind
  parameter_bindings : List (String × ParameterBinding)

structure PortSpec where
  name : String
  ty : ValueType
  cardinality : Cardinality
  wireable : Bool
deriving DecidableEq, Repr

structure Signature where
  kind : BoundaryKind
  inputs : List PortSpec
  outputs : List PortSpec
  has_side_effects : Bool
  is_origin : Bool
deriving DecidableEq, Repr

structure ClusterDefinition where
  id : String
  version : Version
  nodes : List NodeInstance
  edges : List Edge
  input_ports : List InputPortSpec
  output_ports : List OutputPortSpec
  parameters : List ParameterSpec
  declared_signature : Option Signature

structure OutputMetadata where
  value_type : ValueType
  cardinality : Cardinality
deriving DecidableEq, Repr

structure InputMetadata where
  name : String
  value_type : ValueType
  required : Bool
deriving DecidableEq, Repr

structure PrimitiveMetadata where
  kind : PrimitiveKind
  inputs : List InputMetadata
  outputs : List (String × OutputMetadata)
deriving DecidableEq, Repr

structure ImplementationInstance where
  impl_id : String
  version : Version
deriving DecidableEq, Repr

structure ExpandedNode where
  runtime_id : String
  authoring_path : List (String × NodeId)
  implementation : ImplementationInstance
  parameters : List (String × ParameterValue)

inductive ExpandedEndpoint
  | NodePort (node_id : String) (port_name : String)
  | ExternalInput (name : String)
deriving DecidableEq, Repr

structure ExpandedEdge where
  from_ : ExpandedEndpoint
  to_ : ExpandedEndpoint
deriving DecidableEq, Repr

structure ExpandedGraph where
  nodes : List (String × ExpandedNode)
  edges : List ExpandedEdge
  boundary_inputs : List InputPortSpec
  boundary_outputs : List OutputPortSpec

inductive SignatureInferenceError
  | MissingPrimitive (id : String) (version : Version)
  | MissingNode (node : String)
  | MissingOutput (impl_id : String) (version : Version) (output : String)
deriving DecidableEq, Repr

inductive ClusterValidationError
  | WireabilityExceedsInferred (port_name : String)
deriving DecidableEq, Repr

inductive ExpandError
  | EmptyCluster
  | MissingCluster (id : String) (version : Version)
  | DuplicateInputPort (name : String)
  | DuplicateOutputPort (name : String)
  | DuplicateParameter (name : String)
  | ParameterDefaultTypeMismatch (name : String) (expected : ParameterType)
      (got : ParameterType)
  | SignatureInferenceFailed (e : SignatureInferenceError)
  | DeclaredSignatureInvalid (e : ClusterValidationError)
deriving DecidableEq, Repr

def ClusterLoader : Type := String → Version → Option ClusterDefinition

def PrimitiveCatalog : Type := String → Version → Option PrimitiveMetadata

/-- First-match association-list lookup (`HashMap::get` for maps built by
front insertion). -/
def alookup {α : Type} : List (String × α) → String → Option α
  | [], _ => none
  | (k, v) :: rest, key => if k = key then some v else alookup rest key

def parameter_value_type : ParameterValue → ParameterType
  | .IntV _ => .Int
  | .NumberV _ => .Number
  | .BoolV _ => .Bool
  | .StringV _ => .String
  | .EnumV _ => .Enum

/-- First name in the list that repeats an earlier one (`HashSet::insert`
returning false). -/
def first_duplicate (seen : List String) : List String → Option String
  | [] => none
  | n :: rest => if n ∈ seen then some n else first_duplicate (n :: seen) rest

def check_parameters (seen : List String) : List ParameterSpec → Option ExpandError
  | [] => none
  | p :: rest =>
    if p.name ∈ seen then some (.DuplicateParameter p.name)
    else
      match p.default with
      | some d =>
        if parameter_value_type d ≠ p.ty then
          some (.ParameterDefaultTypeMismatch p.name p.ty (parameter_value_type d))
        else check_parameters (p.name :: seen) rest
      | none => check_parameters (p.name :: seen) rest

def validate_cluster_definition (cdef : ClusterDefinition) : Except ExpandError Unit :=
  match first_duplicate [] (cdef.input_ports.map (fun i => i.name)) with
  | some n => .error (.DuplicateInputPort n)
  | none =>
  match first_duplicate [] (cdef.output_ports.map (fun o => o.name)) with
  | some n => .error (.DuplicateOutputPort n)
  | none =>
  match check_parameters [] cdef.parameters with
  | some e => .error e
  | none => .ok ()

def external_key (authoring_trail : List (String × NodeId)) (cluster_id name : String) :
    String :=
  String.intercalate "/"
    ((authoring_trail.map (fun p => p.1 ++ ":" ++ p.2)) ++ [cluster_id, name])

def build_placeholder_map (authoring_trail : List (String × NodeId)) (cluster_id : String)
    (input_ports : List InputPortSpec) : List (String × String) :=
  input_ports.map (fun i =>
    (i.maps_to.name, external_key authoring_trail cluster_id i.maps_to.name))

def resolve_parameter_bindings (bindings : List (String × ParameterBinding)) :
    List (String × ParameterValue) :=
  bindings.filterMap (fun b =>
    match b.2 with
    | .Literal value => some (b.1, value)
    | .Exposed _ => none)

def apply_literal_bindings (cdef : ClusterDefinition)
    (bindings : List (String × ParameterBinding)) : ClusterDefinition :=
  { cdef with
      nodes := cdef.nodes.map (fun node =>
        { node with
            parameter_bindings := node.parameter_bindings.map (fun b =>
              match b.2 with
              | .Exposed parent_param =>
                match alookup bindings parent_param with
                | some (.Literal value) => (b.1, ParameterBinding.Literal value)
                | _ => b
              | _ => b) }) }

def merge_graph (target nested : ExpandedGraph) : ExpandedGraph :=
  { target with
      nodes := nested.nodes ++ target.nodes
      edges := target.edges ++ nested.edges }

def resolve_output_endpoint (output : OutputRef) (node_mapping : List (NodeId × String))
    (cluster_output_map : List (NodeId × List (String × ExpandedEndpoint)))
    (authoring_trail : List (String × NodeId)) (cluster_id : String) : ExpandedEndpoint :=
  match alookup node_mapping output.node_id with
  | some node_id => .NodePort node_id output.port_name
  | none =>
    match alookup cluster_output_map output.node_id with
    | some map =>
      match alookup map output.port_name with
      | some ep => ep
      | none => .ExternalInput (external_key authoring_trail cluster_id output.node_id)
    | none => .ExternalInput (external_key authoring_trail cluster_id output.node_id)

def resolve_input_endpoint (input : InputRef) (node_mapping : List (NodeId × String))
    (cluster_input_map : List (NodeId × List (String × String)))
    (placeholder_map : List (String × String))
    (authoring_trail : List (String × NodeId)) (cluster_id : String) : ExpandedEndpoint :=
  match alookup node_mapping input.node_id with
  | some node_id => .NodePort node_id input.port_name
  | none =>
    match alookup cluster_input_map input.node_id with
    | some map =>
      match alookup map input.port_name with
      | some name => .ExternalInput name
      | none =>
        match alookup placeholder_map input.node_id with
        | some name => .ExternalInput name
        | none => .ExternalInput (external_key authoring_trail cluster_id input.node_id)
    | none =>
      match alookup placeholder_map input.node_id with
      | some name => .ExternalInput name
      | none => .ExternalInput (external_key authoring_trail cluster_id input.node_id)

def redirect_placeholder_edges (placeholder : String) (source : ExpandedEndpoint) :
    List ExpandedEdge → List ExpandedEdge × Bool
  | [] => ([], false)
  | e :: rest =>
    let r := redirect_placeholder_edges placeholder source rest
    match e.from_ with
    | .ExternalInput name =>
      if name = placeholder then ({ e with from_ := source } :: r.1, true)
      else (e :: r.1, r.2)
    | _ => (e :: r.1, r.2)

def add_edges (node_mapping : List (NodeId × String))
    (cluster_output_map : List (NodeId × List (String × ExpandedEndpoint)))
    (cluster_input_map : List (NodeId × List (String × String)))
    (placeholder_map : List (String × String))
    (authoring_trail : List (String × NodeId)) (cluster_id : String) :
    List Edge → List ExpandedEdge → List ExpandedEdge
  | [], acc => acc
  | edge :: rest, acc =>
    let f := resolve_output_endpoint edge.from_ node_mapping cluster_output_map
      authoring_trail cluster_id
    let t := resolve_input_endpoint edge.to_ node_mapping cluster_input_map
      placeholder_map authoring_trail cluster_id
    let acc' :=
      match t with
      | .ExternalInput name =>
        let r := redirect_placeholder_edges name f acc
        if r.2 then r.1 else r.1 ++ [{ from_ := f, to_ := t }]
      | _ => acc ++ [{ from_ := f, to_ := t }]
    add_edges node_mapping cluster_output_map cluster_input_map placeholder_map
      authoring_trail cluster_id rest acc'

def map_boundary_outputs (outputs : List OutputPortSpec)
    (mapping : List (NodeId × String)) : List OutputPortSpec :=
  outputs.map (fun o =>
    { name := o.name
      maps_to :=
        { node_id := (alookup mapping o.maps_to.node_id).getD o.maps_to.node_id
          port_name := o.maps_to.port_name } })

structure ExpandBuild where
  graph : ExpandedGraph
  node_mapping : List (NodeId × String)
  placeholder_map : List (String × String)

structure ExpandSt where
  graph : ExpandedGraph
  node_mapping : List (NodeId × String)
  cluster_output_map : List (NodeId × List (String × ExpandedEndpoint))
  cluster_input_map : List (NodeId × List (String × String))
  next_id : Nat

/-- One pass over a cluster's node list (the node loop of
`expand_with_context`); `rec` is the recursive expansion of a nested cluster
definition at a given counter and authoring prefix. -/
def expand_nodes
    (rec : ClusterDefinition → Nat → List (String × NodeId) →
      Option (Except ExpandError (ExpandBuild × Nat)))
    (cdef : ClusterDefinition) (loader : ClusterLoader)
    (authoring_trail : List (String × NodeId)) :
    List NodeInstance → ExpandSt → Option (Except ExpandError ExpandSt)
  | [], st => some (.ok st)
  | node :: rest, st =>
    match node.kind with
    | .Impl impl_id version =>
      let runtime_id := "n" ++ toString st.next_id
      let en : ExpandedNode :=
        { runtime_id := runtime_id
          authoring_path := authoring_trail ++ [(cdef.id, node.id)]
          implementation := { impl_id := impl_id, version := version }
          parameters := resolve_parameter_bindings node.parameter_bindings }
      expand_nodes rec cdef loader authoring_trail rest
        { st with
            graph := { st.graph with nodes := (runtime_id, en) :: st.graph.nodes }
            node_mapping := (node.id, runtime_id) :: st.node_mapping
            next_id := st.next_id + 1 }
    | .Cluster cluster_id version =>
      match loader cluster_id version with
      | none => some (.error (.MissingCluster cluster_id version))
      | some nested_def =>
        let bound_nested := apply_literal_bindings nested_def node.parameter_bindings
        match rec bound_nested st.next_id (authoring_trail ++ [(cdef.id, node.id)]) with
        | none => none
        | some (.error e) => some (.error e)
        | some (.ok r) =>
          let nested_build := r.1
          let input_map : List (String × String) :=
            bound_nested.input_ports.filterMap (fun ip =>
              (alookup nested_build.placeholder_map ip.maps_to.name).map
                (fun k => (ip.name, k)))
          let output_map : List (String × ExpandedEndpoint) :=
            bound_nested.output_ports.filterMap (fun op =>
              (alookup nested_build.node_mapping op.maps_to.node_id).map
                (fun nid => (op.name, ExpandedEndpoint.NodePort nid op.maps_to.port_name)))
          expand_nodes rec cdef loader authoring_trail rest
            { st with
                graph := merge_graph st.graph nested_build.graph
                node_mapping := nested_build.node_mapping ++ st.node_mapping
                cluster_output_map := (node.id, output_map) :: st.cluster_output_map
                cluster_input_map := (node.id, input_map) :: st.cluster_input_map
                next_id := r.2 }

/-- `expand_with_context`, with fuel bounding the loader-driven recursion
depth (`none` = fuel exhausted, i.e. the unbounded Rust recursion would not
return at this depth). -/
def expand_with_context (loader : ClusterLoader) (catalog : PrimitiveCatalog) :
    Nat → ClusterDefinition → Nat → List (String × NodeId) →
    Option (Except ExpandError (ExpandBuild × Nat))
  | 0, _, _, _ => none
  | fuel + 1, cdef, next_id, authoring_trail =>
    if cdef.nodes.isEmpty then some (.error .EmptyCluster)
    else
      let placeholder_map := build_placeholder_map authoring_trail cdef.id cdef.input_ports
      match expand_nodes (expand_with_context loader catalog fuel) cdef loader
          authoring_trail cdef.nodes
          { graph := { nodes := [], edges := [], boundary_inputs := [], boundary_outputs := [] }
            node_mapping := []
            cluster_output_map := []
            cluster_input_map := []
            next_id := next_id } with
      | none => none
      | some (.error e) => some (.error e)
      | some (.ok st) =>
        let edges := add_edges st.node_mapping st.cluster_output_map st.cluster_input_map
          placeholder_map authoring_trail cdef.id cdef.edges st.graph.edges
        some (.ok
          ({ graph := { st.graph with edges := edges }
             node_mapping := st.node_mapping
             placeholder_map := placeholder_map }, st.next_id))

def is_external_sink (e : ExpandedEdge) : Bool :=
  match e.to_ with
  | .ExternalInput _ => true
  | _ => false

/-- `expand` up to and including boundary assembly and the E.3 sink assertion
(`none` models fuel exhaustion or the assertion firing). -/
def expand_core (fuel : Nat) (cdef : ClusterDefinition) (loader : ClusterLoader)
    (catalog : PrimitiveCatalog) : Option (Except ExpandError ExpandedGraph) :=
  match validate_cluster_definition cdef with
  | .error e => some (.error e)
  | .ok _ =>
    match expand_with_context loader catalog fuel cdef 0 [] with
    | none => none
    | some (.error e) => some (.error e)
    | some (.ok r) =>
      let graph : ExpandedGraph :=
        { r.1.graph with
            boundary_inputs := cdef.input_ports
            boundary_outputs := map_boundary_outputs cdef.output_ports r.1.node_mapping }
      if graph.edges.any is_external_sink then none else some (.ok graph)

def build_node_meta (catalog : PrimitiveCatalog) :
    List (String × ExpandedNode) →
    Except SignatureInferenceError (List (String × PrimitiveMetadata) × Bool)
  | [] => .ok ([], false)
  | (node_id, node) :: rest =>
    match catalog node.implementation.impl_id node.implementation.version with
    | none =>
      .error (.MissingPrimitive node.implementation.impl_id node.implementation.version)
    | some m =>
      match build_node_meta catalog rest with
      | .error e => .error e
      | .ok r => .ok ((node_id, m) :: r.1, r.2 || decide (m.kind = PrimitiveKind.Action))

def infer_outputs (nodes : List (String × ExpandedNode))
    (node_meta : List (String × PrimitiveMetadata)) :
    List OutputPortSpec →
    Except SignatureInferenceError (List PortSpec × Bool × List ValueType)
  | [] => .ok ([], false, [])
  | output :: rest =>
    match alookup node_meta output.maps_to.node_id with
    | none => .error (.MissingNode output.maps_to.node_id)
    | some m =>
      match alookup m.outputs output.maps_to.port_name with
      | none =>
        .error (.MissingOutput
          (((alookup nodes output.maps_to.node_id).map
            (fun n => n.implementation.impl_id)).getD "")
          (((alookup nodes output.maps_to.node_id).map
            (fun n => n.implementation.version)).getD "")
          output.maps_to.port_name)
      | some out_meta =>
        let wireable := decide (m.kind ≠ PrimitiveKind.Action)
        match infer_outputs nodes node_meta rest with
        | .error e => .error e
        | .ok r =>
          .ok ({ name := output.name
                 ty := out_meta.value_type
                 cardinality := out_meta.cardinality
                 wireable := wireable } :: r.1,
            wireable || r.2.1,
            if wireable then out_meta.value_type :: r.2.2 else r.2.2)

def roots_are_sources (graph : ExpandedGraph)
    (node_meta : List (String × PrimitiveMetadata)) : Bool :=
  let incoming := graph.edges.filterMap (fun e =>
    match e.from_, e.to_ with
    | .NodePort _ _, .NodePort t _ => some t
    | _, _ => none)
  graph.nodes.all (fun p =>
    if p.1 ∈ incoming then true
    else
      match alookup node_meta p.1 with
      | some m => decide (m.kind = PrimitiveKind.Source)
      | none => false)

def is_scalar_value_type : ValueType → Bool
  | .Number => true
  | .Series => true
  | .Bool => true
  | .String => true
  | .Event => false

def infer_signature (graph : ExpandedGraph) (catalog : PrimitiveCatalog) :
    Except SignatureInferenceError Signature :=
  match build_node_meta catalog graph.nodes with
  | .error e => .error e
  | .ok nm =>
    let node_meta := nm.1
    let has_side_effects := nm.2
    let inputs : List PortSpec := graph.boundary_inputs.map (fun input =>
      { name := input.name
        ty := input.maps_to.ty
        cardinality := Cardinality.Single
        wireable := false })
    match infer_outputs graph.nodes node_meta graph.boundary_outputs with
    | .error e => .error e
    | .ok r =>
      let outputs := r.1
      let has_wireable_outputs := r.2.1
      let wireable_out_types := r.2.2
      let has_wireable_event_out :=
        wireable_out_types.any (fun t => decide (t = ValueType.Event))
      let kind :=
        if !has_wireable_outputs then BoundaryKind.ActionLike
        else if graph.boundary_inputs.isEmpty
            && wireable_out_types.all is_scalar_value_type then BoundaryKind.SourceLike
        else if has_wireable_event_out then BoundaryKind.TriggerLike
        else BoundaryKind.ComputeLike
      let is_origin := graph.boundary_inputs.isEmpty && roots_are_sources graph node_meta
      .ok { kind := kind
            inputs := inputs
            outputs := outputs
            has_side_effects := has_side_effects
            is_origin := is_origin }

def check_ports (decl_ports inferred_ports : List PortSpec) : Option String :=
  match decl_ports with
  | [] => none
  | d :: rest =>
    match inferred_ports.find? (fun p => p.name == d.name) with
    | some ip =>
      if d.wireable && !ip.wireable then some d.name else check_ports rest inferred_ports
    | none => check_ports rest inferred_ports

def validate_declared_signature (declared inferred : Signature) :
    Except ClusterValidationError Unit :=
  match check_ports declared.outputs inferred.outputs with
  | some n => .error (.WireabilityExceedsInferred n)
  | none =>
    match check_ports declared.inputs inferred.inputs with
    | some n => .error (.WireabilityExceedsInferred n)
    | none => .ok ()

/-- `expand` (crates/runtime/src/cluster.rs). -/
def expand (fuel : Nat) (cdef : ClusterDefinition) (loader : ClusterLoader)
    (catalog : PrimitiveCatalog) : Option (Except ExpandError ExpandedGraph) :=
  match expand_core fuel cdef loader catalog with
  | none => none
  | some (.error e) => some (.error e)
  | some (.ok graph) =>
    match cdef.declared_signature with
    | none => some (.ok graph)
    | some declared =>
      match infer_signature graph catalog with
      | .error e => some (.error (.SignatureInferenceFailed e))
      | .ok inferred =>
        match validate_declared_signature declared inferred with
        | .error e => some (.error (.DeclaredSignatureInvalid e))
        | .ok _ => some (.ok graph)


/-! ### C2: closure after expansion (E.3) -/

theorem expand_core_no_external_sink (fuel : Nat) (cdef : ClusterDefinition)
    (loader : ClusterLoader) (catalog : PrimitiveCatalog) (G : ExpandedGraph)
    (h : expand_core fuel cdef loader catalog = some (.ok G)) :
    G.edges.any is_external_sink = false := by
  unfold expand_core at h
  cases hv : validate_cluster_definition cdef with
  | error e => rw [hv] at h; simp at h
  | ok u =>
    rw [hv] at h
    cases hec : expand_with_context loader catalog fuel cdef 0 [] with
    | none => rw [hec] at h; simp at h
    | some r =>
      cases r with
      | error e => rw [hec] at h; simp at h
      | ok r =>
        rw [hec] at h
        simp only at h
        split at h
        · simp at h
        · rename_i hany
          simp only [Option.some.injEq, Except.ok.injEq] at h
          rw [← h]
          simpa using hany

theorem expand_ok_core_ok (fuel : Nat) (cdef : ClusterDefinition)
    (loader : ClusterLoader) (catalog : PrimitiveCatalog) (G : ExpandedGraph)
    (h : expand fuel cdef loader catalog = some (.ok G)) :
    expand_core fuel cdef loader catalog = some (.ok G) := by
  unfold expand at h
  cases hec : expand_core fuel cdef loader catalog with
  | none => rw [hec] at h; simp at h
  | some r =>
    cases r with
    | error e => rw [hec] at h; simp at h
    | ok g =>
      rw [hec] at h
      simp only at h
      cases hd : cdef.declared_signature with
      | none =>
        rw [hd] at h
        simp only [Option.some.injEq, Except.ok.injEq] at h
        rw [h]
      | some declared =>
        rw [hd] at h
        simp only at h
        cases hi : infer_signature g catalog with
        | error e => rw [hi] at h; simp at h
        | ok inferred =>
          rw [hi] at h
          simp only at h
          cases hvd : validate_declared_signature declared inferred with
          | error e => rw [hvd] at h; simp at h
          | ok u =>
            rw [hvd] at h
            simp only [Option.some.injEq, Except.ok.injEq] at h
            rw [h]

/-- C2: for every cluster definition, loader and catalog for which `expand`
returns Ok with an ExpandedGraph G, no edge of G has an `ExternalInput`
endpoint as its sink (`to` field). -/
theorem c2_closure_after_expansion (fuel : Nat) (cdef : ClusterDefinition)
    (loader : ClusterLoader) (catalog : PrimitiveCatalog) (G : ExpandedGraph)
    (h : expand fuel cdef loader catalog = some (.ok G)) :
    ∀ e ∈ G.edges, ∀ name, e.to_ ≠ ExpandedEndpoint.ExternalInput name := by
  have hany := expand_core_no_external_sink fuel cdef loader catalog G
    (expand_ok_core_ok fuel cdef loader catalog G h)
  intro e he name hcontra
  have hfalse : is_external_sink e = false := by
    by_contra hb
    have hb' : is_external_sink e = true := by simpa using hb
    have : G.edges.any is_external_sink = true := List.any_eq_true.mpr ⟨e, he, hb'⟩
    rw [hany] at this
    exact Bool.noConfusion this
  rw [is_external_sink, hcontra] at hfalse
  exact Bool.noConfusion hfalse

def no_loader : ClusterLoader := fun _ _ => none

def empty_catalog : PrimitiveCatalog := fun _ _ => none

def c2_cluster : ClusterDefinition :=
  { id := "root"
    version := "v1"
    nodes := [{ id := "a", kind := .Impl "prim_a" "v1", parameter_bindings := [] },
              { id := "b", kind := .Impl "prim_b" "v1", parameter_bindings := [] }]
    edges := [{ from_ := { node_id := "a", port_name := "out" }
                to_ := { node_id := "b", port_name := "inp" } }]
    input_ports := []
    output_ports := []
    parameters := []
    declared_signature := none }

def c2_graph : ExpandedGraph :=
  { nodes :=
      [("n1", { runtime_id := "n1"
                authoring_path := [("root", "b")]
                implementation := { impl_id := "prim_b", version := "v1" }
                parameters := [] }),
       ("n0", { runtime_id := "n0"
                authoring_path := [("root", "a")]
                implementation := { impl_id := "prim_a", version := "v1" }
                parameters := [] })]
    edges := [{ from_ := .NodePort "n0" "out", to_ := .NodePort "n1" "inp" }]
    boundary_inputs := []
    boundary_outputs := [] }

theorem c2_closure_after_expansion_witness :
    (ExpandedEdge.mk (.NodePort "n0" "out") (.NodePort "n1" "inp")).to_
      ≠ ExpandedEndpoint.ExternalInput "x" :=
  c2_closure_after_expansion 1 c2_cluster no_loader empty_catalog c2_graph rfl
    (ExpandedEdge.mk (.NodePort "n0" "out") (.NodePort "n1" "inp"))
    (by simp [c2_graph]) "x"


/-! ### C3: declared-signature monotonicity (D.11) -/

/-- Some port (matched by name, first-match as in the source's `find`) is
granted wireability by the declared signature beyond the inferred one. -/
def grants_wireability (declared inferred : Signature) : Prop :=
  (∃ dp ∈ declared.outputs, dp.wireable = true
    ∧ ∃ ip, inferred.outputs.find? (fun p => p.name == dp.name) = some ip
        ∧ ip.wireable = false)
  ∨ (∃ dp ∈ declared.inputs, dp.wireable = true
    ∧ ∃ ip, inferred.inputs.find? (fun p => p.name == dp.name) = some ip
        ∧ ip.wireable = false)

theorem check_ports_eq_some (decl_ports inferred_ports : List PortSpec) (n : String)
    (h : check_ports decl_ports inferred_ports = some n) :
    ∃ dp ∈ decl_ports, dp.name = n ∧ dp.wireable = true
      ∧ ∃ ip, inferred_ports.find? (fun p => p.name == dp.name) = some ip
          ∧ ip.wireable = false := by
  induction decl_ports with
  | nil => simp [check_ports] at h
  | cons d rest ih =>
    rw [check_ports] at h
    cases hf : inferred_ports.find? (fun p => p.name == d.name) with
    | none =>
      rw [hf] at h
      simp only at h
      obtain ⟨dp, hmem, hprop⟩ := ih h
      exact ⟨dp, List.mem_cons_of_mem d hmem, hprop⟩
    | some ip =>
      rw [hf] at h
      simp only at h
      by_cases hw : (d.wireable && !ip.wireable) = true
      · rw [if_pos hw] at h
        simp only [Option.some.injEq] at h
        simp only [Bool.and_eq_true, Bool.not_eq_true'] at hw
        exact ⟨d, List.mem_cons_self d rest, h, hw.1, ip, hf, hw.2⟩
      · rw [if_neg hw] at h
        obtain ⟨dp, hmem, hprop⟩ := ih h
        exact ⟨dp, List.mem_cons_of_mem d hmem, hprop⟩

theorem check_ports_eq_none (decl_ports inferred_ports : List PortSpec)
    (h : check_ports decl_ports inferred_ports = none) :
    ∀ dp ∈ decl_ports, dp.wireable = true →
      ∀ ip, inferred_ports.find? (fun p => p.name == dp.name) = some ip →
        ip.wireable = true := by
  induction decl_ports with
  | nil => intro dp hmem; simp at hmem
  | cons d rest ih =>
    rw [check_ports] at h
    intro dp hmem hw ip hf
    rcases List.mem_cons.mp hmem with rfl | hmem'
    · rw [hf] at h
      simp only at h
      by_cases hcase : (dp.wireable && !ip.wireable) = true
      · rw [if_pos hcase] at h; exact Option.noConfusion h
      · simp only [Bool.and_eq_true, Bool.not_eq_true'] at hcase
        rcases Bool.eq_false_or_eq_true ip.wireable with htrue | hfalse
        · exact htrue
        · exact absurd ⟨hw, hfalse⟩ hcase
    · cases hf' : inferred_ports.find? (fun p => p.name == d.name) with
      | none =>
        rw [hf'] at h
        simp only at h
        exact ih h dp hmem' hw ip hf
      | some ip' =>
        rw [hf'] at h
        simp only at h
        by_cases hcase : (d.wireable && !ip'.wireable) = true
        · rw [if_pos hcase] at h; exact Option.noConfusion h
        · rw [if_neg hcase] at h
          exact ih h dp hmem' hw ip hf

theorem check_ports_ne_none (decl_ports inferred_ports : List PortSpec)
    (dp : PortSpec) (hmem : dp ∈ decl_ports) (hw : dp.wireable = true)
    (ip : PortSpec) (hf : inferred_ports.find? (fun p => p.name == dp.name) = some ip)
    (hipw : ip.wireable = false) : check_ports decl_ports inferred_ports ≠ none := by
  intro hnone
  have := check_ports_eq_none decl_ports inferred_ports hnone dp hmem hw ip hf
  rw [hipw] at this
  exact Bool.noConfusion this

theorem validate_declared_signature_error_iff (declared inferred : Signature) :
    (∃ p, validate_declared_signature declared inferred
      = .error (.WireabilityExceedsInferred p))
    ↔ grants_wireability declared inferred := by
  constructor
  · rintro ⟨p, hp⟩
    unfold validate_declared_signature at hp
    cases ho : check_ports declared.outputs inferred.outputs with
    | some n =>
      rw [ho] at hp
      simp only at hp
      obtain ⟨dp, hmem, _, hrest⟩ := check_ports_eq_some _ _ n ho
      exact Or.inl ⟨dp, hmem, hrest⟩
    | none =>
      rw [ho] at hp
      simp only at hp
      cases hi : check_ports declared.inputs inferred.inputs with
      | some n =>
        rw [hi] at hp
        simp only at hp
        obtain ⟨dp, hmem, _, hrest⟩ := check_ports_eq_some _ _ n hi
        exact Or.inr ⟨dp, hmem, hrest⟩
      | none => rw [hi] at hp; simp at hp
  · intro hg
    unfold validate_declared_signature
    cases ho : check_ports declared.outputs inferred.outputs with
    | some n => exact ⟨n, rfl⟩
    | none =>
      rcases hg with ⟨dp, hmem, hw, ip, hf, hipw⟩ | ⟨dp, hmem, hw, ip, hf, hipw⟩
      · exact absurd ho (check_ports_ne_none _ _ dp hmem hw ip hf hipw)
      · cases hi : check_ports declared.inputs inferred.inputs with
        | some n => exact ⟨n, rfl⟩
        | none => exact absurd hi (check_ports_ne_none _ _ dp hmem hw ip hf hipw)

def c3_cluster : ClusterDefinition :=
  { id := "root"
    version := "v1"
    nodes := [{ id := "action_node", kind := .Impl "action" "v1", parameter_bindings := [] }]
    edges := []
    input_ports := []
    output_ports := [{ name := "outcome"
                       maps_to := { node_id := "action_node", port_name := "outcome" } }]
    parameters := []
    declared_signature := some
      { kind := .ActionLike
        inputs := []
        outputs := [{ name := "outcome", ty := .Event, cardinality := .Single,
                      wireable := true }]
        has_side_effects := true
        is_origin := false } }

def c3_catalog : PrimitiveCatalog := fun id ver =>
  if id = "action" ∧ ver = "v1" then
    some { kind := .Action
           inputs := []
           outputs := [("outcome", { value_type := .Event, cardinality := .Single })] }
  else none

def c3_graph : ExpandedGraph :=
  { nodes :=
      [("n0", { runtime_id := "n0"
                authoring_path := [("root", "action_node")]
                implementation := { impl_id := "action", version := "v1" }
                parameters := [] })]
    edges := []
    boundary_inputs := []
    boundary_outputs := [{ name := "outcome"
                           maps_to := { node_id := "n0", port_name := "outcome" } }] }

def c3_inferred : Signature :=
  { kind := .ActionLike
    inputs := []
    outputs := [{ name := "outcome", ty := .Event, cardinality := .Single,
                  wireable := false }]
    has_side_effects := true
    is_origin := false }

/-- C3: when expansion and signature inference succeed for a cluster with a
declared signature, `expand` fails with
`DeclaredSignatureInvalid (WireabilityExceedsInferred _)` iff some port
present (matched by name) in both the declared and the inferred signature,
among outputs or among inputs, has declared wireable = true and inferred
wireable = false; hence no accepted pair grants wireability beyond the
inferred signature.  Concretely (scenario S7) a cluster whose single node is
an Action with declared boundary output "outcome" marked wireable is rejected
with port_name "outcome". -/
theorem c3_declared_signature_monotonicity (fuel : Nat) (cdef : ClusterDefinition)
    (loader : ClusterLoader) (catalog : PrimitiveCatalog) (G : ExpandedGraph)
    (declared inferred : Signature)
    (hd : cdef.declared_signature = some declared)
    (hcore : expand_core fuel cdef loader catalog = some (.ok G))
    (hinf : infer_signature G catalog = .ok inferred) :
    ((∃ p, expand fuel cdef loader catalog
        = some (.error (.DeclaredSignatureInvalid (.WireabilityExceedsInferred p))))
      ↔ grants_wireability declared inferred)
    ∧ (expand fuel cdef loader catalog = some (.ok G)
        → ¬ grants_wireability declared inferred)
    ∧ expand 1 c3_cluster no_loader c3_catalog
        = some (.error (.DeclaredSignatureInvalid (.WireabilityExceedsInferred "outcome"))) := by
  have hexp : expand fuel cdef loader catalog
      = (match validate_declared_signature declared inferred with
        | .error e => some (.error (.DeclaredSignatureInvalid e))
        | .ok _ => some (.ok G)) := by
    unfold expand
    rw [hcore]
    simp only
    rw [hd]
    simp only
    rw [hinf]
  refine ⟨?_, ?_, rfl⟩
  · rw [← validate_declared_signature_error_iff]
    constructor
    · rintro ⟨p, hp⟩
      rw [hexp] at hp
      cases hv : validate_declared_signature declared inferred with
      | error e =>
        cases e with
        | WireabilityExceedsInferred q =>
          rw [hv] at hp
          simp only [Option.some.injEq, Except.error.injEq,
            ExpandError.DeclaredSignatureInvalid.injEq,
            ClusterValidationError.WireabilityExceedsInferred.injEq] at hp
          exact ⟨q, rfl⟩
      | ok u => rw [hv] at hp; simp at hp
    · rintro ⟨p, hp⟩
      refine ⟨p, ?_⟩
      rw [hexp, hp]
  · intro hok
    rw [← validate_declared_signature_error_iff]
    rintro ⟨p, hp⟩
    rw [hexp, hp] at hok
    simp at hok

theorem c3_declared_signature_monotonicity_witness :
    grants_wireability
      { kind := .ActionLike
        inputs := []
        outputs := [{ name := "outcome", ty := .Event, cardinality := .Single,
                      wireable := true }]
        has_side_effects := true
        is_origin := false }
      c3_inferred :=
  (c3_declared_signature_monotonicity 1 c3_cluster no_loader c3_catalog c3_graph
      { kind := .ActionLike
        inputs := []
        outputs := [{ name := "outcome", ty := .Event, cardinality := .Single,
                      wireable := true }]
        has_side_effects := true
        is_origin := false }
      c3_inferred rfl rfl rfl).1.mp ⟨"outcome", rfl⟩


/-! ### C8: boundary classification -/

theorem infer_outputs_shape (nodes : List (String × ExpandedNode))
    (node_meta : List (String × PrimitiveMetadata)) :
    ∀ (outs : List OutputPortSpec) (ps : List PortSpec) (hw : Bool) (wt : List ValueType),
      infer_outputs nodes node_meta outs = .ok (ps, hw, wt) →
      ps.length = outs.length
      ∧ hw = ps.any (fun p => p.wireable)
      ∧ wt = (ps.filter (fun p => p.wireable)).map (fun p => p.ty) := by
  intro outs
  induction outs with
  | nil =>
    intro ps hw wt h
    simp only [infer_outputs, Except.ok.injEq, Prod.mk.injEq] at h
    obtain ⟨h1, h2, h3⟩ := h
    rw [← h1, ← h2, ← h3]
    simp
  | cons output rest ih =>
    intro ps hw wt h
    rw [infer_outputs] at h
    cases hm : alookup node_meta output.maps_to.node_id with
    | none => rw [hm] at h; simp at h
    | some m =>
      rw [hm] at h
      simp only at h
      cases ho : alookup m.outputs output.maps_to.port_name with
      | none => rw [ho] at h; simp at h
      | some om =>
        rw [ho] at h
        simp only at h
        cases hr : infer_outputs nodes node_meta rest with
        | error e => rw [hr] at h; simp at h
        | ok r => 
          rw [hr] at h
          simp only [Except.ok.injEq, Prod.mk.injEq] at h
          obtain ⟨h1, h2, h3⟩ := h
          obtain ⟨ihl, ihw, iht⟩ := ih r.1 r.2.1 r.2.2 (by rw [hr])
          constructor
          · rw [← h1]
            simp [ihl]
          constructor
          · rw [← h2, ← h1]
            simp only [List.any_cons]
            rw [ihw]
          · rw [← h3, ← h1]
            by_cases hwweak : decide (m.kind ≠ PrimitiveKind.Action) = true
            · simp only [hwweak, if_true, List.filter_cons, List.map_cons]
              simp only [hwweak, iht, if_true]
            · have hwfalse : decide (m.kind ≠ PrimitiveKind.Action) = false := by
                simpa using hwweak
              simp only [hwfalse, if_false, List.filter_cons]
              simp only [hwfalse, iht, Bool.false_eq_true, if_false]

theorem infer_outputs_wireable (nodes : List (String × ExpandedNode))
    (node_meta : List (String × PrimitiveMetadata)) :
    ∀ (outs : List OutputPortSpec) (ps : List PortSpec) (hw : Bool) (wt : List ValueType),
      infer_outputs nodes node_meta outs = .ok (ps, hw, wt) →
      ∀ pr ∈ outs.zip ps,
        ∃ m, alookup node_meta pr.1.maps_to.node_id = some m
          ∧ pr.2.wireable = decide (m.kind ≠ PrimitiveKind.Action)
          ∧ ∃ om, alookup m.outputs pr.1.maps_to.port_name = some om
              ∧ pr.2.ty = om.value_type ∧ pr.2.name = pr.1.name := by
  intro outs
  induction outs with
  | nil => intro ps hw wt h pr hpr; simp at hpr
  | cons output rest ih =>
    intro ps hw wt h pr hpr
    rw [infer_outputs] at h
    cases hm : alookup node_meta output.maps_to.node_id with
    | none => rw [hm] at h; simp at h
    | some m =>
      rw [hm] at h
      simp only at h
      cases ho : alookup m.outputs output.maps_to.port_name with
      | none => rw [ho] at h; simp at h
      | some om =>
        rw [ho] at h
        simp only at h
        cases hr : infer_outputs nodes node_meta rest with
        | error e => rw [hr] at h; simp at h
        | ok r =>
          rw [hr] at h
          simp only [Except.ok.injEq, Prod.mk.injEq] at h
          obtain ⟨h1, h2, h3⟩ := h
          rw [← h1] at hpr
          rcases List.mem_cons.mp hpr with heq | hmem
          · rw [heq]
            exact ⟨m, hm, rfl, om, ho, rfl, rfl⟩
          · exact ih r.1 r.2.1 r.2.2 (by rw [hr]) pr hmem

theorem build_node_meta_lookup (catalog : PrimitiveCatalog) :
    ∀ (ns : List (String × ExpandedNode)) (nm : List (String × PrimitiveMetadata))
      (hse : Bool), build_node_meta catalog ns = .ok (nm, hse) →
      ∀ k m, alookup nm k = some m →
        ∃ en, alookup ns k = some en
          ∧ catalog en.implementation.impl_id en.implementation.version = some m := by
  intro ns
  induction ns with
  | nil =>
    intro nm hse h k m hl
    simp only [build_node_meta, Except.ok.injEq, Prod.mk.injEq] at h
    rw [← h.1] at hl
    simp [alookup] at hl
  | cons p rest ih =>
    intro nm hse h k m hl
    obtain ⟨node_id, node⟩ := p
    rw [build_node_meta] at h
    cases hc : catalog node.implementation.impl_id node.implementation.version with
    | none => rw [hc] at h; simp at h
    | some m0 =>
      rw [hc] at h
      simp only at h
      cases hb : build_node_meta catalog rest with
      | error e => rw [hb] at h; simp at h
      | ok r =>
        rw [hb] at h
        simp only [Except.ok.injEq, Prod.mk.injEq] at h
        obtain ⟨h1, h2⟩ := h
        rw [← h1] at hl
        by_cases hk : node_id = k
        · rw [alookup, if_pos hk] at hl
          simp only [Option.some.injEq] at hl
          refine ⟨node, ?_, by rw [← hl]; exact hc⟩
          rw [alookup, if_pos hk]
        · rw [alookup, if_neg hk] at hl
          obtain ⟨en, hen, hcat⟩ := ih r.1 r.2 (by rw [hb]) k m hl
          refine ⟨en, ?_, hcat⟩
          rw [alookup, if_neg hk]
          exact hen

/-- C8: for every graph and catalog on which `infer_signature` returns Ok,
the returned kind follows the classification cascade (ActionLike if no
wireable output, else SourceLike if no boundary inputs and every wireable
output is scalar, else TriggerLike if some wireable output has type Event,
else ComputeLike), and each boundary output's wireability is exactly
"source node's kind is not Action" per the catalog. -/
theorem c8_boundary_classification (g : ExpandedGraph) (catalog : PrimitiveCatalog)
    (sig : Signature) (h : infer_signature g catalog = .ok sig) :
    (sig.kind =
      if !(sig.outputs.any (fun p => p.wireable)) then BoundaryKind.ActionLike
      else if g.boundary_inputs.isEmpty
          && ((sig.outputs.filter (fun p => p.wireable)).map (fun p => p.ty)).all
            is_scalar_value_type then BoundaryKind.SourceLike
      else if ((sig.outputs.filter (fun p => p.wireable)).map (fun p => p.ty)).any
          (fun t => decide (t = ValueType.Event)) then BoundaryKind.TriggerLike
      else BoundaryKind.ComputeLike)
    ∧ sig.outputs.length = g.boundary_outputs.length
    ∧ (∀ pr ∈ g.boundary_outputs.zip sig.outputs,
        ∃ en m, alookup g.nodes pr.1.maps_to.node_id = some en
          ∧ catalog en.implementation.impl_id en.implementation.version = some m
          ∧ pr.2.wireable = decide (m.kind ≠ PrimitiveKind.Action)) := by
  unfold infer_signature at h
  cases hb : build_node_meta catalog g.nodes with
  | error e => rw [hb] at h; simp at h
  | ok nm =>
    rw [hb] at h
    simp only at h
    cases hio : infer_outputs g.nodes nm.1 g.boundary_outputs with
    | error e => rw [hio] at h; simp at h
    | ok r =>
      rw [hio] at h
      simp only [Except.ok.injEq] at h
      obtain ⟨hl, hhw, hwt⟩ := infer_outputs_shape g.nodes nm.1 g.boundary_outputs
        r.1 r.2.1 r.2.2 (by rw [hio])
      refine ⟨?_, ?_, ?_⟩
      · rw [← h]
        simp only
        rw [hhw, hwt]
      · rw [← h]
        simp only
        exact hl
      · intro pr hpr
        have hzip : pr ∈ g.boundary_outputs.zip r.1 := by
          rw [← h] at hpr
          simpa using hpr
        obtain ⟨m, hm, hwire, _⟩ := infer_outputs_wireable g.nodes nm.1
          g.boundary_outputs r.1 r.2.1 r.2.2 (by rw [hio]) pr hzip
        obtain ⟨en, hen, hcat⟩ := build_node_meta_lookup catalog g.nodes nm.1 nm.2
          (by rw [hb]) pr.1.maps_to.node_id m hm
        exact ⟨en, m, hen, hcat, hwire⟩

theorem c8_boundary_classification_witness :
    c3_inferred.kind =
      if !(c3_inferred.outputs.any (fun p => p.wireable)) then BoundaryKind.ActionLike
      else if c3_graph.boundary_inputs.isEmpty
          && ((c3_inferred.outputs.filter (fun p => p.wireable)).map (fun p => p.ty)).all
            is_scalar_value_type then BoundaryKind.SourceLike
      else if ((c3_inferred.outputs.filter (fun p => p.wireable)).map (fun p => p.ty)).any
          (fun t => decide (t = ValueType.Event)) then BoundaryKind.TriggerLike
      else BoundaryKind.ComputeLike :=
  (c8_boundary_classification c3_graph c3_catalog c3_inferred rfl).1


/-!
Part 3 models the graph validator (crates/runtime/src/runtime/validate.rs and
types.rs).  The Kahn queue (a Rust `BTreeSet<String>`) is modelled as a
duplicate-free list from which the minimum is extracted at each step; the
`unwrap` panics on an edge endpoint that is not a graph node are modelled by
`topological_sort` returning `none`.  The loop bound `node count` suffices:
every iteration moves one queue element into the output, and the invariants
below show at most `node count` such moves can happen.
-/

structure ValidatedNode where
  runtime_id : String
  impl_id : String
  version : Version
  kind : PrimitiveKind
  inputs : List InputMetadata
  outputs : List (String × OutputMetadata)
  parameters : List (String × ParameterValue)

structure Endpoint where
  node_id : String
  port_name : String
deriving DecidableEq, Repr

structure ValidatedEdge where
  from_ : Endpoint
  to_ : Endpoint
deriving DecidableEq, Repr

structure ValidatedGraph where
  nodes : List (String × ValidatedNode)
  edges : List ValidatedEdge
  topo_order : List String
  boundary_outputs : List OutputPortSpec

inductive ValidationError
  | CycleDetected
  | UnknownNode (node : String)
  | MissingPrimitive (id : String) (version : Version)
  | InvalidEdgeKind (from_ : PrimitiveKind) (to_ : PrimitiveKind)
  | MissingRequiredInput (node : String) (input : String)
  | MissingInputMetadata (node : String) (input : String)
  | TypeMismatch (from_ : String) (output : String) (to_ : String) (input : String)
      (expected : ValueType) (got : ValueType)
  | ActionNotGated (node : String)
  | MissingOutputMetadata (node : String) (output : String)
  | ExternalInputNotAllowed (name : String)
deriving DecidableEq, Repr

def attach_metadata (catalog : PrimitiveCatalog) :
    List (String × ExpandedNode) → Except ValidationError (List (String × ValidatedNode))
  | [] => .ok []
  | (id, node) :: rest =>
    match catalog node.implementation.impl_id node.implementation.version with
    | none =>
      .error (.MissingPrimitive node.implementation.impl_id node.implementation.version)
    | some m =>
      match attach_metadata catalog rest with
      | .error e => .error e
      | .ok ns =>
        .ok ((id, { runtime_id := id
                    impl_id := node.implementation.impl_id
                    version := node.implementation.version
                    kind := m.kind
                    inputs := m.inputs
                    outputs := m.outputs
                    parameters := node.parameters }) :: ns)

def map_edges : List ExpandedEdge → Except ValidationError (List ValidatedEdge)
  | [] => .ok []
  | e :: rest =>
    match e.from_ with
    | .ExternalInput name => .error (.ExternalInputNotAllowed name)
    | .NodePort fnode fport =>
      match e.to_ with
      | .ExternalInput name => .error (.ExternalInputNotAllowed name)
      | .NodePort tnode tport =>
        match map_edges rest with
        | .error err => .error err
        | .ok es =>
          .ok ({ from_ := { node_id := fnode, port_name := fport }
                 to_ := { node_id := tnode, port_name := tport } } :: es)

def bump_deg (f : String → Nat) (k : String) (n : Nat) : String → Nat :=
  fun x => if x = k then n else f x

/-- Builds the in-degree map; `none` models the `unwrap` panic on an edge
endpoint that is not a key of the node map. -/
def build_in_degree (ids : List String) : List ValidatedEdge → (String → Nat) →
    Option (String → Nat)
  | [], deg => some deg
  | e :: rest, deg =>
    if e.to_.node_id ∈ ids ∧ e.from_.node_id ∈ ids then
      build_in_degree ids rest (bump_deg deg e.to_.node_id (deg e.to_.node_id + 1))
    else none

/-- `BTreeSet::insert`. -/
def insert_set (q : List String) (x : String) : List String :=
  if x ∈ q then q else q ++ [x]

/-- One in-degree decrement (the body of the dependents loop), inserting the
target into the queue when its degree reaches zero. -/
def kahn_dec (dq : (String → Nat) × List String) (e : ValidatedEdge) :
    (String → Nat) × List String :=
  let n := dq.1 e.to_.node_id - 1
  (bump_deg dq.1 e.to_.node_id n,
    if n = 0 then insert_set dq.2 e.to_.node_id else dq.2)

/-- Decrement the in-degree of every dependent of `u` (one decrement per edge
out of `u`, in edge order), inserting nodes whose degree reaches zero. -/
def kahn_step (edges : List ValidatedEdge) (u : String)
    (dq : (String → Nat) × List String) : (String → Nat) × List String :=
  (edges.filter (fun e => e.from_.node_id == u)).foldl kahn_dec dq

def kahn_loop (edges : List ValidatedEdge) :
    Nat → List String → (String → Nat) → List String → List String
  | 0, _, _, sorted => sorted
  | fuel + 1, queue, deg, sorted =>
    match queue.min? with
    | none => sorted
    | some u =>
      let dq := kahn_step edges u (deg, queue.erase u)
      kahn_loop edges fuel dq.2 dq.1 (sorted ++ [u])

def topological_sort (nodes : List (String × ValidatedNode))
    (edges : List ValidatedEdge) : Option (Except ValidationError (List String)) :=
  let ids := nodes.map (fun p => p.1)
  match build_in_degree ids edges (fun _ => 0) with
  | none => none
  | some deg =>
    let queue := ids.filter (fun v => deg v == 0)
    let sorted := kahn_loop edges ids.length queue deg []
    if sorted.length = nodes.length then some (.ok sorted)
    else some (.error .CycleDetected)

def wiring_allowed : PrimitiveKind → PrimitiveKind → Bool
  | .Source, .Compute => true
  | .Compute, .Compute => true
  | .Compute, .Trigger => true
  | .Trigger, .Trigger => true
  | .Trigger, .Action => true
  | _, _ => false

def enforce_wiring_matrix (nodes : List (String × ValidatedNode)) :
    List ValidatedEdge → Except ValidationError Unit
  | [] => .ok ()
  | e :: rest =>
    match alookup nodes e.from_.node_id with
    | none => .error (.UnknownNode e.from_.node_id)
    | some fn =>
      match alookup nodes e.to_.node_id with
      | none => .error (.UnknownNode e.to_.node_id)
      | some tn =>
        if wiring_allowed fn.kind tn.kind then enforce_wiring_matrix nodes rest
        else .error (.InvalidEdgeKind fn.kind tn.kind)

def has_incoming (edges : List ValidatedEdge) (node input : String) : Bool :=
  edges.any (fun e => e.to_.node_id == node && e.to_.port_name == input)

def enforce_required_inputs (edges : List ValidatedEdge) :
    List (String × ValidatedNode) → Except ValidationError Unit
  | [] => .ok ()
  | (id, n) :: rest =>
    match (n.inputs.filter (fun i => i.required)).find?
        (fun i => !(has_incoming edges id i.name)) with
    | some i => .error (.MissingRequiredInput id i.name)
    | none => enforce_required_inputs edges rest

def enforce_types (nodes : List (String × ValidatedNode)) :
    List ValidatedEdge → Except ValidationError Unit
  | [] => .ok ()
  | e :: rest =>
    match alookup nodes e.from_.node_id with
    | none => .error (.UnknownNode e.from_.node_id)
    | some fn =>
      match alookup nodes e.to_.node_id with
      | none => .error (.UnknownNode e.to_.node_id)
      | some tn =>
        match alookup fn.outputs e.from_.port_name with
        | none => .error (.MissingOutputMetadata e.from_.node_id e.from_.port_name)
        | some om =>
          match tn.inputs.find? (fun i => i.name == e.to_.port_name) with
          | none => .error (.MissingInputMetadata e.to_.node_id e.to_.port_name)
          | some im =>
            if om.value_type = im.value_type then enforce_types nodes rest
            else .error (.TypeMismatch e.from_.node_id e.from_.port_name
              e.to_.node_id e.to_.port_name im.value_type om.value_type)

def gating_edge (nodes : List (String × ValidatedNode)) (e : ValidatedEdge) : Bool :=
  match alookup nodes e.to_.node_id with
  | some target =>
    if target.kind = PrimitiveKind.Action then
      match alookup nodes e.from_.node_id with
      | some src =>
        if src.kind = PrimitiveKind.Trigger then
          match alookup src.outputs e.from_.port_name with
          | some om => decide (om.value_type = ValueType.Event)
          | none => false
        else false
      | none => false
    else false
  | none => false

def gated_actions (nodes : List (String × ValidatedNode))
    (edges : List ValidatedEdge) : List String :=
  edges.foldl
    (fun acc e => if gating_edge nodes e then insert_set acc e.to_.node_id else acc) []

def enforce_action_gating (nodes : List (String × ValidatedNode))
    (edges : List ValidatedEdge) : Except ValidationError Unit :=
  match nodes.find? (fun p => p.2.kind == PrimitiveKind.Action
      && !((gated_actions nodes edges).contains p.1)) with
  | some p => .error (.ActionNotGated p.1)
  | none => .ok ()

/-- `validate` (crates/runtime/src/runtime/validate.rs); `none` models a
panic inside `topological_sort`. -/
def validate (expanded : ExpandedGraph) (catalog : PrimitiveCatalog) :
    Option (Except ValidationError ValidatedGraph) :=
  match attach_metadata catalog expanded.nodes with
  | .error e => some (.error e)
  | .ok nodes =>
    match map_edges expanded.edges with
    | .error e => some (.error e)
    | .ok edges =>
      match topological_sort nodes edges with
      | none => none
      | some (.error e) => some (.error e)
      | some (.ok topo_order) =>
        match enforce_wiring_matrix nodes edges with
        | .error e => some (.error e)
        | .ok _ =>
          match enforce_required_inputs edges nodes with
          | .error e => some (.error e)
          | .ok _ =>
            match enforce_types nodes edges with
            | .error e => some (.error e)
            | .ok _ =>
              match enforce_action_gating nodes edges with
              | .error e => some (.error e)
              | .ok _ =>
                some (.ok { nodes := nodes
                            edges := edges
                            topo_order := topo_order
                            boundary_outputs := expanded.boundary_outputs })


/-! ### Kahn order facts -/

/-- `a` occurs strictly before `b` in `l`. -/
def appears_before (l : List String) (a b : String) : Prop :=
  ∃ l1 l2 l3, l = l1 ++ (a :: (l2 ++ (b :: l3)))

theorem appears_before_append (l : List String) (a b u : String)
    (h : appears_before l a b) : appears_before (l ++ [u]) a b := by
  obtain ⟨l1, l2, l3, rfl⟩ := h
  exact ⟨l1, l2, l3 ++ [u], by simp⟩

theorem appears_before_snoc (l : List String) (a u : String) (h : a ∈ l) :
    appears_before (l ++ [u]) a u := by
  obtain ⟨l1, l2, rfl⟩ := List.append_of_mem h
  exact ⟨l1, l2, [], by simp⟩

theorem appears_before_mem_left {l : List String} {a b : String}
    (h : appears_before l a b) : a ∈ l := by
  obtain ⟨l1, l2, l3, rfl⟩ := h
  simp

/-- Position of the first occurrence. -/
def pos_in (a : String) : List String → Nat
  | [] => 0
  | x :: rest => if x = a then 0 else pos_in a rest + 1

theorem pos_in_append_of_not_mem (a : String) (l1 l2 : List String) (h : a ∉ l1) :
    pos_in a (l1 ++ l2) = l1.length + pos_in a l2 := by
  induction l1 with
  | nil => simp [pos_in]
  | cons x rest ih =>
    have hxa : x ≠ a := by
      intro hx
      exact h (by simp [hx])
    have hrest : a ∉ rest := fun hm => h (List.mem_cons_of_mem x hm)
    show pos_in a (x :: (rest ++ l2)) = (x :: rest).length + pos_in a l2
    rw [pos_in, if_neg hxa, ih hrest, List.length_cons]
    omega

theorem appears_before_pos (l : List String) (a b : String) (hnd : l.Nodup)
    (h : appears_before l a b) : pos_in a l < pos_in b l := by
  obtain ⟨l1, l2, l3, rfl⟩ := h
  rw [List.nodup_append] at hnd
  obtain ⟨hnd1, hnd2, hdisj⟩ := hnd
  have ha1 : a ∉ l1 := by
    intro hm
    exact hdisj hm (by simp)
  have hb1 : b ∉ l1 := by
    intro hm
    exact hdisj hm (by simp)
  have hba : a ≠ b := by
    rw [List.nodup_cons] at hnd2
    intro hab
    exact hnd2.1 (by rw [hab]; simp)
  have hb2 : b ∉ l2 := by
    rw [List.nodup_cons, List.nodup_append] at hnd2
    intro hm
    exact hnd2.2.2.2 hm (by simp)
  rw [pos_in_append_of_not_mem a l1 _ ha1, pos_in_append_of_not_mem b l1 _ hb1]
  have hpa : pos_in a (a :: (l2 ++ (b :: l3))) = 0 := by
    rw [pos_in, if_pos rfl]
  have hpb : pos_in b (a :: (l2 ++ (b :: l3))) = l2.length + 1 := by
    rw [pos_in, if_neg hba, pos_in_append_of_not_mem b l2 _ hb2]
    rw [pos_in, if_pos rfl]
  rw [hpa, hpb]
  omega

def has_edge (edges : List ValidatedEdge) (u v : String) : Prop :=
  ∃ e ∈ edges, e.from_.node_id = u ∧ e.to_.node_id = v

theorem insert_set_mem (q : List String) (x v : String) :
    v ∈ insert_set q x ↔ v ∈ q ∨ v = x := by
  unfold insert_set
  by_cases h : x ∈ q
  · rw [if_pos h]
    constructor
    · exact Or.inl
    · rintro (hv | rfl)
      · exact hv
      · exact h
  · rw [if_neg h]
    simp

theorem insert_set_nodup (q : List String) (x : String) (h : q.Nodup) :
    (insert_set q x).Nodup := by
  unfold insert_set
  by_cases hm : x ∈ q
  · rw [if_pos hm]; exact h
  · rw [if_neg hm]
    simp [List.nodup_append, h, hm]


theorem kahn_fold_deg :
    ∀ (l : List ValidatedEdge) (dq : (String → Nat) × List String) (v : String),
      (l.foldl kahn_dec dq).1 v
        = dq.1 v - l.countP (fun e => decide (e.to_.node_id = v)) := by
  intro l
  induction l with
  | nil => intro dq v; simp
  | cons e rest ih =>
    intro dq v
    rw [List.foldl_cons, List.countP_cons, ih]
    by_cases hv : e.to_.node_id = v
    · have hcnt : (if decide (e.to_.node_id = v) = true then 1 else 0) = 1 := by simp [hv]
      have h1 : (kahn_dec dq e).1 v = dq.1 v - 1 := by
        simp only [kahn_dec, bump_deg]
        rw [if_pos hv.symm, hv]
      rw [hcnt, h1]
      omega
    · have hcnt : (if decide (e.to_.node_id = v) = true then 1 else 0) = 0 := by simp [hv]
      have h1 : (kahn_dec dq e).1 v = dq.1 v := by
        simp only [kahn_dec, bump_deg]
        rw [if_neg (fun hx => hv hx.symm)]
      rw [hcnt, h1]
      omega

theorem kahn_fold_mem :
    ∀ (l : List ValidatedEdge) (dq : (String → Nat) × List String) (v : String),
      v ∈ (l.foldl kahn_dec dq).2
      ↔ v ∈ dq.2
        ∨ (0 < l.countP (fun e => decide (e.to_.node_id = v))
          ∧ (l.foldl kahn_dec dq).1 v = 0) := by
  intro l
  induction l with
  | nil => intro dq v; simp
  | cons e rest ih =>
    intro dq v
    rw [List.foldl_cons, List.countP_cons, ih]
    have hdeg : ((rest.foldl kahn_dec (kahn_dec dq e)).1) v
        = (kahn_dec dq e).1 v - rest.countP (fun e => decide (e.to_.node_id = v)) :=
      kahn_fold_deg rest (kahn_dec dq e) v
    by_cases hv : e.to_.node_id = v
    · have hcnt : (if decide (e.to_.node_id = v) = true then 1 else 0) = 1 := by simp [hv]
      have h1 : (kahn_dec dq e).1 v = dq.1 v - 1 := by
        simp only [kahn_dec, bump_deg]
        rw [if_pos hv.symm, hv]
      by_cases hn : dq.1 e.to_.node_id - 1 = 0
      · have h2 : (kahn_dec dq e).2 = insert_set dq.2 e.to_.node_id := by
          simp only [kahn_dec]
          rw [if_pos hn]
        rw [h2, hcnt, hdeg, h1]
        rw [hv] at hn
        constructor
        · intro _
          exact Or.inr ⟨by omega, by omega⟩
        · intro _
          exact Or.inl ((insert_set_mem _ _ _).mpr (Or.inr hv.symm))
      · have h2 : (kahn_dec dq e).2 = dq.2 := by
          simp only [kahn_dec]
          rw [if_neg hn]
        rw [h2, hcnt, hdeg, h1]
        rw [hv] at hn
        constructor
        · rintro (hq | ⟨hc, hz⟩)
          · exact Or.inl hq
          · exact Or.inr ⟨by omega, hz⟩
        · rintro (hq | ⟨hc, hz⟩)
          · exact Or.inl hq
          · exact Or.inr ⟨by omega, hz⟩
    · have hcnt : (if decide (e.to_.node_id = v) = true then 1 else 0) = 0 := by simp [hv]
      have h2 : v ∈ (kahn_dec dq e).2 ↔ v ∈ dq.2 := by
        simp only [kahn_dec]
        by_cases hn : dq.1 e.to_.node_id - 1 = 0
        · rw [if_pos hn, insert_set_mem]
          constructor
          · rintro (hq | rfl)
            · exact hq
            · exact absurd rfl hv
          · exact Or.inl
        · rw [if_neg hn]
      rw [h2, hcnt, Nat.add_zero]

theorem kahn_fold_nodup :
    ∀ (l : List ValidatedEdge) (dq : (String → Nat) × List String),
      dq.2.Nodup → (l.foldl kahn_dec dq).2.Nodup := by
  intro l
  induction l with
  | nil => intro dq h; exact h
  | cons e rest ih =>
    intro dq h
    rw [List.foldl_cons]
    apply ih
    simp only [kahn_dec]
    by_cases hn : dq.1 e.to_.node_id - 1 = 0
    · rw [if_pos hn]
      exact insert_set_nodup dq.2 e.to_.node_id h
    · rw [if_neg hn]
      exact h

theorem build_in_degree_spec (ids : List String) :
    ∀ (edges : List ValidatedEdge) (deg0 deg : String → Nat),
      build_in_degree ids edges deg0 = some deg →
      (∀ e ∈ edges, e.from_.node_id ∈ ids ∧ e.to_.node_id ∈ ids)
      ∧ ∀ v, deg v = deg0 v + edges.countP (fun e => decide (e.to_.node_id = v)) := by
  intro edges
  induction edges with
  | nil =>
    intro deg0 deg h
    simp only [build_in_degree, Option.some.injEq] at h
    refine ⟨by simp, ?_⟩
    intro v
    rw [← h]
    simp
  | cons e rest ih =>
    intro deg0 deg h
    rw [build_in_degree] at h
    by_cases hmem : e.to_.node_id ∈ ids ∧ e.from_.node_id ∈ ids
    · rw [if_pos hmem] at h
      obtain ⟨hend, hdeg⟩ := ih _ deg h
      refine ⟨?_, ?_⟩
      · intro e' he'
        rcases List.mem_cons.mp he' with rfl | hmem'
        · exact ⟨hmem.2, hmem.1⟩
        · exact hend e' hmem'
      · intro v
        rw [hdeg v, List.countP_cons]
        simp only [bump_deg]
        by_cases hv : v = e.to_.node_id
        · rw [if_pos hv, hv]
          have hcnt : (if decide (e.to_.node_id = e.to_.node_id) = true then 1 else 0)
              = 1 := by simp
          rw [hcnt]
          omega
        · rw [if_neg hv]
          have hne : e.to_.node_id ≠ v := fun hx => hv hx.symm
          have hcnt : (if decide (e.to_.node_id = v) = true then 1 else 0) = 0 := by
            simp [hne]
          rw [hcnt]
          omega
    · rw [if_neg hmem] at h
      exact Option.noConfusion h

theorem build_in_degree_total (ids : List String) :
    ∀ (edges : List ValidatedEdge) (deg0 : String → Nat),
      (∀ e ∈ edges, e.from_.node_id ∈ ids ∧ e.to_.node_id ∈ ids) →
      ∃ deg, build_in_degree ids edges deg0 = some deg := by
  intro edges
  induction edges with
  | nil => intro deg0 _; exact ⟨deg0, rfl⟩
  | cons e rest ih =>
    intro deg0 hend
    rw [build_in_degree]
    have he := hend e (List.mem_cons_self e rest)
    rw [if_pos ⟨he.2, he.1⟩]
    exact ih _ (fun e' he' => hend e' (List.mem_cons_of_mem e he'))


theorem countP_split_u (edges : List ValidatedEdge) (sorted : List String)
    (u v : String) (hu : u ∉ sorted) :
    edges.countP (fun e => decide (e.to_.node_id = v ∧ e.from_.node_id ∉ sorted))
    = edges.countP (fun e => decide (e.from_.node_id = u ∧ e.to_.node_id = v))
      + edges.countP
        (fun e => decide (e.to_.node_id = v ∧ e.from_.node_id ∉ sorted ++ [u])) := by
  induction edges with
  | nil => simp
  | cons e rest ih =>
    rw [List.countP_cons, List.countP_cons, List.countP_cons]
    have hstep :
        (if decide (e.to_.node_id = v ∧ e.from_.node_id ∉ sorted) = true then 1 else 0)
        = (if decide (e.from_.node_id = u ∧ e.to_.node_id = v) = true then 1 else 0)
          + (if decide (e.to_.node_id = v ∧ e.from_.node_id ∉ sorted ++ [u]) = true
            then 1 else 0) := by
      by_cases htv : e.to_.node_id = v
      · by_cases hfu : e.from_.node_id = u
        · simp [htv, hfu, hu, List.mem_append]
        · by_cases hfs : e.from_.node_id ∈ sorted
          · simp [htv, hfu, hfs, List.mem_append]
          · simp [htv, hfu, hfs, List.mem_append]
      · simp [htv]
    omega

/-- Loop invariant of Kahn's algorithm over
(`queue`, in-degree map, emitted prefix). -/
structure KahnInv (ids : List String) (edges : List ValidatedEdge)
    (queue : List String) (deg : String → Nat) (sorted : List String) : Prop where
  sorted_nodup : sorted.Nodup
  queue_nodup : queue.Nodup
  sorted_sub : ∀ x ∈ sorted, x ∈ ids
  queue_sub : ∀ x ∈ queue, x ∈ ids
  disj : ∀ x ∈ queue, x ∉ sorted
  deg_eq : ∀ v, deg v = edges.countP
    (fun e => decide (e.to_.node_id = v ∧ e.from_.node_id ∉ sorted))
  queue_iff : ∀ v ∈ ids, v ∉ sorted → (v ∈ queue ↔ deg v = 0)
  ordered : ∀ e ∈ edges, e.to_.node_id ∈ sorted →
    appears_before sorted e.from_.node_id e.to_.node_id

theorem kahn_inv_step (ids : List String) (edges : List ValidatedEdge)
    (hend : ∀ e ∈ edges, e.from_.node_id ∈ ids ∧ e.to_.node_id ∈ ids)
    (queue : List String) (deg : String → Nat) (sorted : List String) (u : String)
    (hinv : KahnInv ids edges queue deg sorted)
    (hu : queue.min? = some u) :
    KahnInv ids edges (kahn_step edges u (deg, queue.erase u)).2
      (kahn_step edges u (deg, queue.erase u)).1 (sorted ++ [u]) := by
  have hu_mem : u ∈ queue := List.min?_mem (fun a b => min_choice a b) hu
  have hu_ids : u ∈ ids := hinv.queue_sub u hu_mem
  have hu_ns : u ∉ sorted := hinv.disj u hu_mem
  have hdeg_u : deg u = 0 := (hinv.queue_iff u hu_ids hu_ns).mp hu_mem
  have hsrc_sorted : ∀ e ∈ edges, e.to_.node_id = u → e.from_.node_id ∈ sorted := by
    intro e he htv
    have h0 : edges.countP
        (fun e => decide (e.to_.node_id = u ∧ e.from_.node_id ∉ sorted)) = 0 := by
      rw [← hinv.deg_eq u]
      exact hdeg_u
    have hno := List.countP_eq_zero.mp h0 e he
    simp only [decide_eq_true_eq] at hno
    by_contra hns
    exact hno ⟨htv, hns⟩
  have hFcnt : ∀ v,
      (edges.filter (fun e => e.from_.node_id == u)).countP
        (fun e => decide (e.to_.node_id = v))
      = edges.countP (fun e => decide (e.from_.node_id = u ∧ e.to_.node_id = v)) := by
    intro v
    rw [List.countP_filter]
    apply List.countP_congr
    intro e _
    constructor
    · intro h
      simp only [Bool.and_eq_true, decide_eq_true_eq, beq_iff_eq] at h
      simp only [decide_eq_true_eq]
      exact ⟨h.2, h.1⟩
    · intro h
      simp only [decide_eq_true_eq] at h
      simp only [Bool.and_eq_true, decide_eq_true_eq, beq_iff_eq]
      exact ⟨h.2, h.1⟩
  have hdeg' : ∀ v, (kahn_step edges u (deg, queue.erase u)).1 v
      = deg v - edges.countP (fun e => decide (e.from_.node_id = u ∧ e.to_.node_id = v)) := by
    intro v
    rw [kahn_step, kahn_fold_deg, hFcnt]
  have hdeg_new : ∀ v, (kahn_step edges u (deg, queue.erase u)).1 v
      = edges.countP
        (fun e => decide (e.to_.node_id = v ∧ e.from_.node_id ∉ sorted ++ [u])) := by
    intro v
    rw [hdeg' v, hinv.deg_eq v, countP_split_u edges sorted u v hu_ns]
    omega
  have hmem' : ∀ v, v ∈ (kahn_step edges u (deg, queue.erase u)).2
      ↔ v ∈ queue.erase u
        ∨ (0 < edges.countP (fun e => decide (e.from_.node_id = u ∧ e.to_.node_id = v))
          ∧ (kahn_step edges u (deg, queue.erase u)).1 v = 0) := by
    intro v
    rw [kahn_step, kahn_fold_mem, hFcnt, ← kahn_step]
  have hmem_app : ∀ v : String, v ∈ sorted ++ [u] ↔ v ∈ sorted ∨ v = u := by
    intro v
    rw [List.mem_append, List.mem_singleton]
  refine ⟨?_, ?_, ?_, ?_, ?_, hdeg_new, ?_, ?_⟩
  · rw [List.nodup_append]
    refine ⟨hinv.sorted_nodup, List.nodup_singleton u, ?_⟩
    intro x hx hxu
    rw [List.mem_singleton] at hxu
    exact hu_ns (hxu ▸ hx)
  · rw [kahn_step]
    exact kahn_fold_nodup _ _ (hinv.queue_nodup.erase u)
  · intro x hx
    rcases (hmem_app x).mp hx with hxs | rfl
    · exact hinv.sorted_sub x hxs
    · exact hu_ids
  · intro x hx
    rcases (hmem' x).mp hx with hxe | ⟨hpos, _⟩
    · exact hinv.queue_sub x (List.erase_subset u queue hxe)
    · obtain ⟨e, he, hp⟩ := List.countP_pos_iff.mp hpos
      simp only [decide_eq_true_eq] at hp
      exact hp.2 ▸ (hend e he).2
  · intro x hx
    rw [hmem_app]
    rcases (hmem' x).mp hx with hxe | ⟨hpos, _⟩
    · have hx' := (hinv.queue_nodup.mem_erase_iff).mp hxe
      rintro (hxs | rfl)
      · exact hinv.disj x hx'.2 hxs
      · exact hx'.1 rfl
    · obtain ⟨e, he, hp⟩ := List.countP_pos_iff.mp hpos
      simp only [decide_eq_true_eq] at hp
      rintro (hxs | rfl)
      · have hord := hinv.ordered e he (hp.2 ▸ hxs)
        exact hu_ns (hp.1 ▸ appears_before_mem_left hord)
      · exact hu_ns (hp.1 ▸ hsrc_sorted e he hp.2)
  · intro v hv hvs
    have hv_parts : v ∉ sorted ∧ v ≠ u := by
      rw [hmem_app] at hvs
      push_neg at hvs
      exact hvs
    constructor
    · intro hvq
      rcases (hmem' v).mp hvq with hxe | ⟨_, hz⟩
      · have hvqq := (hinv.queue_nodup.mem_erase_iff).mp hxe
        have hdv : deg v = 0 := (hinv.queue_iff v hv hv_parts.1).mp hvqq.2
        rw [hdeg' v, hdv]
        omega
      · exact hz
    · intro hz
      by_cases hc : 0 < edges.countP
          (fun e => decide (e.from_.node_id = u ∧ e.to_.node_id = v))
      · exact (hmem' v).mpr (Or.inr ⟨hc, hz⟩)
      · have hdv : deg v = 0 := by
          rw [hdeg' v] at hz
          omega
        have hvq : v ∈ queue := (hinv.queue_iff v hv hv_parts.1).mpr hdv
        refine (hmem' v).mpr (Or.inl ?_)
        exact (hinv.queue_nodup.mem_erase_iff).mpr ⟨hv_parts.2, hvq⟩
  · intro e he hto
    rcases (hmem_app _).mp hto with hts | htu
    · exact appears_before_append sorted _ _ u (hinv.ordered e he hts)
    · rw [htu]
      exact appears_before_snoc sorted _ u (hsrc_sorted e he htu)

theorem kahn_loop_inv (ids : List String) (edges : List ValidatedEdge)
    (hend : ∀ e ∈ edges, e.from_.node_id ∈ ids ∧ e.to_.node_id ∈ ids) :
    ∀ (fuel : Nat) (queue : List String) (deg : String → Nat) (sorted : List String),
      KahnInv ids edges queue deg sorted →
      ∃ queue' deg', KahnInv ids edges queue' deg'
        (kahn_loop edges fuel queue deg sorted) := by
  intro fuel
  induction fuel with
  | zero =>
    intro queue deg sorted hinv
    exact ⟨queue, deg, hinv⟩
  | succ fuel ih =>
    intro queue deg sorted hinv
    rw [kahn_loop]
    cases hq : queue.min? with
    | none => exact ⟨queue, deg, hinv⟩
    | some u =>
      simp only
      exact ih _ _ _ (kahn_inv_step ids edges hend queue deg sorted u hinv hq)

theorem kahn_inv_init (ids : List String) (edges : List ValidatedEdge)
    (hids : ids.Nodup) (deg : String → Nat)
    (hdeg : ∀ v, deg v = edges.countP (fun e => decide (e.to_.node_id = v))) :
    KahnInv ids edges (ids.filter (fun v => deg v == 0)) deg [] := by
  refine ⟨List.nodup_nil, hids.filter _, by simp, ?_, by simp, ?_, ?_, by simp⟩
  · intro x hx
    exact (List.mem_filter.mp hx).1
  · intro v
    rw [hdeg v]
    apply List.countP_congr
    intro e _
    simp
  · intro v hv _
    rw [List.mem_filter]
    simp [hv]


theorem kahn_complete (ids : List String) (hids : ids.Nodup) (sorted : List String)
    (hnd : sorted.Nodup) (hsub : ∀ x ∈ sorted, x ∈ ids)
    (hlen : sorted.length = ids.length) : ∀ n, n ∈ sorted ↔ n ∈ ids := by
  have h1 : sorted.toFinset ⊆ ids.toFinset := by
    intro x hx
    rw [List.mem_toFinset] at hx ⊢
    exact hsub x hx
  have hc1 : sorted.toFinset.card = sorted.length := List.toFinset_card_of_nodup hnd
  have hc2 : ids.toFinset.card = ids.length := List.toFinset_card_of_nodup hids
  have heq : sorted.toFinset = ids.toFinset :=
    Finset.eq_of_subset_of_card_le h1 (by omega)
  intro n
  rw [← List.mem_toFinset, ← List.mem_toFinset (l := ids), heq]

theorem no_cycle_of_order (edges : List ValidatedEdge) (sorted : List String)
    (hnd : sorted.Nodup)
    (hord : ∀ e ∈ edges, appears_before sorted e.from_.node_id e.to_.node_id) :
    ¬ ∃ v, Relation.TransGen (has_edge edges) v v := by
  rintro ⟨v, htg⟩
  have hmono : ∀ a b, Relation.TransGen (has_edge edges) a b →
      pos_in a sorted < pos_in b sorted := by
    intro a b h
    induction h with
    | single h1 =>
      obtain ⟨e, he, hf, ht⟩ := h1
      have := appears_before_pos sorted _ _ hnd (hord e he)
      rw [hf, ht] at this
      exact this
    | tail _ h2 ih =>
      obtain ⟨e, he, hf, ht⟩ := h2
      have := appears_before_pos sorted _ _ hnd (hord e he)
      rw [hf, ht] at this
      exact ih.trans this
  exact absurd (hmono v v htg) (lt_irrefl _)

theorem topological_sort_ok (nodes : List (String × ValidatedNode))
    (edges : List ValidatedEdge) (sorted : List String)
    (hids : (nodes.map (fun p => p.1)).Nodup)
    (h : topological_sort nodes edges = some (.ok sorted)) :
    sorted.Nodup
    ∧ (∀ n, n ∈ sorted ↔ n ∈ nodes.map (fun p => p.1))
    ∧ (∀ e ∈ edges, appears_before sorted e.from_.node_id e.to_.node_id) := by
  unfold topological_sort at h
  simp only at h
  cases hb : build_in_degree (nodes.map (fun p => p.1)) edges (fun _ => 0) with
  | none => rw [hb] at h; simp at h
  | some deg =>
    rw [hb] at h
    simp only at h
    obtain ⟨hend, hdeg⟩ := build_in_degree_spec _ edges _ deg hb
    have hdeg0 : ∀ v, deg v = edges.countP (fun e => decide (e.to_.node_id = v)) := by
      intro v
      rw [hdeg v]
      omega
    have hinit := kahn_inv_init (nodes.map (fun p => p.1)) edges hids deg hdeg0
    obtain ⟨q', d', hfin⟩ := kahn_loop_inv (nodes.map (fun p => p.1)) edges hend
      (nodes.map (fun p => p.1)).length
      ((nodes.map (fun p => p.1)).filter (fun v => deg v == 0)) deg [] hinit
    split at h
    · rename_i hlen
      simp only [Option.some.injEq, Except.ok.injEq] at h
      rw [← h]
      have hlen' : (kahn_loop edges (nodes.map (fun p => p.1)).length
          ((nodes.map (fun p => p.1)).filter (fun v => deg v == 0)) deg []).length
          = (nodes.map (fun p => p.1)).length := by
        rw [hlen, List.length_map]
      have hcomp := kahn_complete (nodes.map (fun p => p.1)) hids _
        hfin.sorted_nodup hfin.sorted_sub hlen'
      refine ⟨hfin.sorted_nodup, hcomp, ?_⟩
      intro e he
      exact hfin.ordered e he ((hcomp _).mpr (hend e he).2)
    · simp at h

theorem topological_sort_cycle (nodes : List (String × ValidatedNode))
    (edges : List ValidatedEdge)
    (hids : (nodes.map (fun p => p.1)).Nodup)
    (hend : ∀ e ∈ edges, e.from_.node_id ∈ nodes.map (fun p => p.1)
      ∧ e.to_.node_id ∈ nodes.map (fun p => p.1))
    (hcyc : ∃ v, Relation.TransGen (has_edge edges) v v) :
    topological_sort nodes edges = some (.error .CycleDetected) := by
  obtain ⟨deg, hb⟩ := build_in_degree_total (nodes.map (fun p => p.1)) edges
    (fun _ => 0) hend
  unfold topological_sort
  simp only
  rw [hb]
  simp only
  obtain ⟨_, hdeg⟩ := build_in_degree_spec _ edges _ deg hb
  have hdeg0 : ∀ v, deg v = edges.countP (fun e => decide (e.to_.node_id = v)) := by
    intro v
    rw [hdeg v]
    omega
  have hinit := kahn_inv_init (nodes.map (fun p => p.1)) edges hids deg hdeg0
  obtain ⟨q', d', hfin⟩ := kahn_loop_inv (nodes.map (fun p => p.1)) edges hend
    (nodes.map (fun p => p.1)).length
    ((nodes.map (fun p => p.1)).filter (fun v => deg v == 0)) deg [] hinit
  rw [if_neg]
  intro hlen
  have hlen' : (kahn_loop edges (nodes.map (fun p => p.1)).length
      ((nodes.map (fun p => p.1)).filter (fun v => deg v == 0)) deg []).length
      = (nodes.map (fun p => p.1)).length := by
    rw [hlen, List.length_map]
  have hcomp := kahn_complete (nodes.map (fun p => p.1)) hids _
    hfin.sorted_nodup hfin.sorted_sub hlen'
  refine absurd hcyc (no_cycle_of_order edges _ hfin.sorted_nodup ?_)
  intro e he
  exact hfin.ordered e he ((hcomp _).mpr (hend e he).2)

theorem attach_metadata_keys (catalog : PrimitiveCatalog) :
    ∀ (ns : List (String × ExpandedNode)) (ns' : List (String × ValidatedNode)),
      attach_metadata catalog ns = .ok ns' →
      ns'.map (fun p => p.1) = ns.map (fun p => p.1) := by
  intro ns
  induction ns with
  | nil =>
    intro ns' h
    simp only [attach_metadata, Except.ok.injEq] at h
    rw [← h]
    rfl
  | cons p rest ih =>
    intro ns' h
    obtain ⟨id, node⟩ := p
    rw [attach_metadata] at h
    cases hc : catalog node.implementation.impl_id node.implementation.version with
    | none => rw [hc] at h; simp at h
    | some m =>
      rw [hc] at h
      simp only at h
      cases ha : attach_metadata catalog rest with
      | error e => rw [ha] at h; simp at h
      | ok ns0 =>
        rw [ha] at h
        simp only [Except.ok.injEq] at h
        rw [← h]
        simp only [List.map_cons, List.map_map]
        rw [ih ns0 ha]

theorem validate_ok_inv (g : ExpandedGraph) (catalog : PrimitiveCatalog)
    (G : ValidatedGraph) (h : validate g catalog = some (.ok G)) :
    attach_metadata catalog g.nodes = .ok G.nodes
    ∧ map_edges g.edges = .ok G.edges
    ∧ topological_sort G.nodes G.edges = some (.ok G.topo_order)
    ∧ enforce_action_gating G.nodes G.edges = .ok () := by
  unfold validate at h
  cases ha : attach_metadata catalog g.nodes with
  | error e => rw [ha] at h; simp at h
  | ok ns =>
    rw [ha] at h
    simp only at h
    cases hm : map_edges g.edges with
    | error e => rw [hm] at h; simp at h
    | ok es =>
      rw [hm] at h
      simp only at h
      cases ht : topological_sort ns es with
      | none => rw [ht] at h; simp at h
      | some tr =>
        cases tr with
        | error e => rw [ht] at h; simp at h
        | ok topo =>
          rw [ht] at h
          simp only at h
          cases hw : enforce_wiring_matrix ns es with
          | error e => rw [hw] at h; simp at h
          | ok u1 =>
            rw [hw] at h
            simp only at h
            cases hr : enforce_required_inputs es ns with
            | error e => rw [hr] at h; simp at h
            | ok u2 =>
              rw [hr] at h
              simp only at h
              cases hy : enforce_types ns es with
              | error e => rw [hy] at h; simp at h
              | ok u3 =>
                rw [hy] at h
                simp only at h
                cases hg : enforce_action_gating ns es with
                | error e => rw [hg] at h; simp at h
                | ok u4 =>
                  rw [hg] at h
                  simp only [Option.some.injEq, Except.ok.injEq] at h
                  subst h
                  exact ⟨rfl, rfl, ht, hg⟩


def c6_graph : ExpandedGraph :=
  { nodes := [("n0", { runtime_id := "n0"
                       authoring_path := []
                       implementation := { impl_id := "p", version := "v1" }
                       parameters := [] })]
    edges := [{ from_ := .NodePort "n0" "o", to_ := .NodePort "n0" "i" }]
    boundary_inputs := []
    boundary_outputs := [] }

/-- C6 counterexample: a graph whose edge relation has a cycle (a self-loop
on "n0") but whose primitive is missing from the catalog; `validate` returns
`MissingPrimitive`, not `CycleDetected`, because metadata attachment fails
before the topological sort runs. -/
theorem c6_topological_order_counterexample :
    (∃ v, Relation.TransGen
      (has_edge [{ from_ := { node_id := "n0", port_name := "o" }
                   to_ := { node_id := "n0", port_name := "i" } }]) v v)
    ∧ validate c6_graph empty_catalog = some (.error (.MissingPrimitive "p" "v1"))
    ∧ ValidationError.MissingPrimitive "p" "v1" ≠ ValidationError.CycleDetected :=
  ⟨⟨"n0", Relation.TransGen.single
      ⟨{ from_ := { node_id := "n0", port_name := "o" }
         to_ := { node_id := "n0", port_name := "i" } }, by simp, rfl, rfl⟩⟩,
    rfl, by decide⟩

/-- C6 (amended): for every ExpandedGraph on which `validate` returns Ok, the
returned `topo_order` contains each node id exactly once and every edge's
source appears before its target; when metadata attachment and the
external-input rejection succeed and every edge endpoint is a graph node,
`validate` returns `CycleDetected` whenever the edge relation over the nodes
contains a cycle; and validating the same graph twice yields identical
`topo_order` (the model is a pure function, and the queue of ready nodes is a
min-extracted ordered set, so the emitted order is canonical). -/
theorem c6_topological_order (g : ExpandedGraph) (catalog : PrimitiveCatalog)
    (hnd : (g.nodes.map (fun p => p.1)).Nodup) :
    (∀ G, validate g catalog = some (.ok G) →
      G.topo_order.Nodup
      ∧ (∀ n, n ∈ G.topo_order ↔ n ∈ g.nodes.map (fun p => p.1))
      ∧ ∀ e ∈ G.edges, appears_before G.topo_order e.from_.node_id e.to_.node_id)
    ∧ (∀ ns es, attach_metadata catalog g.nodes = .ok ns → map_edges g.edges = .ok es →
        (∀ e ∈ es, e.from_.node_id ∈ g.nodes.map (fun p => p.1)
          ∧ e.to_.node_id ∈ g.nodes.map (fun p => p.1)) →
        (∃ v, Relation.TransGen (has_edge es) v v) →
        validate g catalog = some (.error .CycleDetected))
    ∧ validate g catalog = validate g catalog := by
  refine ⟨?_, ?_, rfl⟩
  · intro G h
    obtain ⟨ha, hm, ht, _⟩ := validate_ok_inv g catalog G h
    have hkeys := attach_metadata_keys catalog g.nodes G.nodes ha
    obtain ⟨hnodup, hcomp, hord⟩ := topological_sort_ok G.nodes G.edges G.topo_order
      (by rw [hkeys]; exact hnd) ht
    refine ⟨hnodup, ?_, hord⟩
    intro n
    rw [hcomp n, hkeys]
  · intro ns es ha hm hend hcyc
    have hkeys := attach_metadata_keys catalog g.nodes ns ha
    have hnd' : (ns.map (fun p => p.1)).Nodup := by rw [hkeys]; exact hnd
    have hend' : ∀ e ∈ es, e.from_.node_id ∈ ns.map (fun p => p.1)
        ∧ e.to_.node_id ∈ ns.map (fun p => p.1) := by
      intro e he
      rw [hkeys]
      exact hend e he
    have htc := topological_sort_cycle ns es hnd' hend' hcyc
    unfold validate
    rw [ha]
    simp only
    rw [hm]
    simp only
    rw [htc]

def c7_graph : ExpandedGraph :=
  { nodes :=
      [("t", { runtime_id := "t"
               authoring_path := []
               implementation := { impl_id := "trig", version := "v1" }
               parameters := [] }),
       ("a", { runtime_id := "a"
               authoring_path := []
               implementation := { impl_id := "act", version := "v1" }
               parameters := [] })]
    edges := [{ from_ := .NodePort "t" "event", to_ := .NodePort "a" "event" }]
    boundary_inputs := []
    boundary_outputs := [] }

def c7_catalog : PrimitiveCatalog := fun id ver =>
  if id = "trig" ∧ ver = "v1" then
    some { kind := .Trigger
           inputs := []
           outputs := [("event", { value_type := .Event, cardinality := .Single })] }
  else if id = "act" ∧ ver = "v1" then
    some { kind := .Action
           inputs := [{ name := "event", value_type := .Event, required := true }]
           outputs := [("outcome", { value_type := .Event, cardinality := .Single })] }
  else none

def c7_validated : ValidatedGraph :=
  { nodes :=
      [("t", { runtime_id := "t"
               impl_id := "trig"
               version := "v1"
               kind := .Trigger
               inputs := []
               outputs := [("event", { value_type := .Event, cardinality := .Single })]
               parameters := [] }),
       ("a", { runtime_id := "a"
               impl_id := "act"
               version := "v1"
               kind := .Action
               inputs := [{ name := "event", value_type := .Event, required := true }]
               outputs := [("outcome", { value_type := .Event, cardinality := .Single })]
               parameters := [] })]
    edges := [{ from_ := { node_id := "t", port_name := "event" }
                to_ := { node_id := "a", port_name := "event" } }]
    topo_order := ["t", "a"]
    boundary_outputs := [] }

theorem c6_topological_order_witness :
    c7_validated.topo_order.Nodup
    ∧ appears_before c7_validated.topo_order "t" "a" := by
  have h := (c6_topological_order c7_graph c7_catalog (by decide)).1 c7_validated rfl
  refine ⟨h.1, ?_⟩
  exact h.2.2
    { from_ := { node_id := "t", port_name := "event" }
      to_ := { node_id := "a", port_name := "event" } }
    (by simp [c7_validated])


/-! ### C7: action gating -/

theorem contains_iff_mem_str (l : List String) (a : String) :
    l.contains a = true ↔ a ∈ l := List.elem_iff

/-- The target of a validated-gating edge: source is a Trigger whose named
output port has type Event (matching `enforce_action_gating`'s edge scan). -/
def gated (nodes : List (String × ValidatedNode)) (edges : List ValidatedEdge)
    (a : String) : Prop :=
  ∃ e ∈ edges, e.to_.node_id = a
    ∧ ∃ src, alookup nodes e.from_.node_id = some src
        ∧ src.kind = PrimitiveKind.Trigger
        ∧ ∃ om, alookup src.outputs e.from_.port_name = some om
            ∧ om.value_type = ValueType.Event

theorem gating_edge_eq_true (nodes : List (String × ValidatedNode))
    (e : ValidatedEdge) :
    gating_edge nodes e = true ↔
    ∃ target, alookup nodes e.to_.node_id = some target
      ∧ target.kind = PrimitiveKind.Action
      ∧ ∃ src, alookup nodes e.from_.node_id = some src
          ∧ src.kind = PrimitiveKind.Trigger
          ∧ ∃ om, alookup src.outputs e.from_.port_name = some om
              ∧ om.value_type = ValueType.Event := by
  constructor
  · intro h
    unfold gating_edge at h
    cases ht : alookup nodes e.to_.node_id with
    | none => rw [ht] at h; exact Bool.noConfusion h
    | some target =>
      rw [ht] at h
      simp only at h
      by_cases hta : target.kind = PrimitiveKind.Action
      · rw [if_pos hta] at h
        cases hf : alookup nodes e.from_.node_id with
        | none => rw [hf] at h; exact Bool.noConfusion h
        | some src =>
          rw [hf] at h
          simp only at h
          by_cases hst : src.kind = PrimitiveKind.Trigger
          · rw [if_pos hst] at h
            cases ho : alookup src.outputs e.from_.port_name with
            | none => rw [ho] at h; exact Bool.noConfusion h
            | some om =>
              rw [ho] at h
              simp only [decide_eq_true_eq] at h
              exact ⟨target, rfl, hta, src, rfl, hst, om, ho, h⟩
          · rw [if_neg hst] at h
            exact Bool.noConfusion h
      · rw [if_neg hta] at h
        exact Bool.noConfusion h
  · rintro ⟨target, ht, hta, src, hf, hst, om, ho, hov⟩
    unfold gating_edge
    rw [ht]
    simp only
    rw [if_pos hta, hf]
    simp only
    rw [if_pos hst, ho]
    simp [hov]

theorem gated_actions_mem_aux (nodes : List (String × ValidatedNode)) :
    ∀ (es : List ValidatedEdge) (acc : List String) (a : String),
      a ∈ es.foldl
        (fun acc e => if gating_edge nodes e then insert_set acc e.to_.node_id else acc)
        acc
      ↔ a ∈ acc ∨ ∃ e ∈ es, gating_edge nodes e = true ∧ e.to_.node_id = a := by
  intro es
  induction es with
  | nil => intro acc a; simp
  | cons e rest ih =>
    intro acc a
    rw [List.foldl_cons, ih]
    by_cases hg : gating_edge nodes e = true
    · rw [if_pos hg, insert_set_mem]
      constructor
      · rintro ((hacc | rfl) | ⟨e', he', hp⟩)
        · exact Or.inl hacc
        · exact Or.inr ⟨e, List.mem_cons_self e rest, hg, rfl⟩
        · exact Or.inr ⟨e', List.mem_cons_of_mem e he', hp⟩
      · rintro (hacc | ⟨e', he', hp, hto⟩)
        · exact Or.inl (Or.inl hacc)
        · rcases List.mem_cons.mp he' with rfl | hmem
          · exact Or.inl (Or.inr hto.symm)
          · exact Or.inr ⟨e', hmem, hp, hto⟩
    · rw [if_neg hg]
      constructor
      · rintro (hacc | ⟨e', he', hp⟩)
        · exact Or.inl hacc
        · exact Or.inr ⟨e', List.mem_cons_of_mem e he', hp⟩
      · rintro (hacc | ⟨e', he', hp, hto⟩)
        · exact Or.inl hacc
        · rcases List.mem_cons.mp he' with rfl | hmem
          · exact absurd hp hg
          · exact Or.inr ⟨e', hmem, hp, hto⟩

theorem gated_actions_mem (nodes : List (String × ValidatedNode))
    (edges : List ValidatedEdge) (a : String) :
    a ∈ gated_actions nodes edges
    ↔ ∃ e ∈ edges, gating_edge nodes e = true ∧ e.to_.node_id = a := by
  rw [gated_actions, gated_actions_mem_aux]
  simp

theorem mem_gated_actions_gated (nodes : List (String × ValidatedNode))
    (edges : List ValidatedEdge) (a : String) (h : a ∈ gated_actions nodes edges) :
    gated nodes edges a := by
  obtain ⟨e, he, hg, hto⟩ := (gated_actions_mem nodes edges a).mp h
  obtain ⟨_, _, _, src, hf, hst, om, ho, hov⟩ := (gating_edge_eq_true nodes e).mp hg
  exact ⟨e, he, hto, src, hf, hst, om, ho, hov⟩

theorem alookup_of_mem_nodup {α : Type} (l : List (String × α)) (k : String) (v : α)
    (hnd : (l.map (fun p => p.1)).Nodup) (hmem : (k, v) ∈ l) :
    alookup l k = some v := by
  induction l with
  | nil => simp at hmem
  | cons p rest ih =>
    rw [List.map_cons, List.nodup_cons] at hnd
    rcases List.mem_cons.mp hmem with heq | hmem'
    · rw [← heq]
      rw [alookup, if_pos rfl]
    · rw [alookup]
      by_cases hk : p.1 = k
      · exfalso
        apply hnd.1
        rw [hk]
        exact List.mem_map.mpr ⟨(k, v), hmem', rfl⟩
      · rw [if_neg hk]
        exact ih hnd.2 hmem'

/-- C7: `validate` returns Ok only if every Action node has at least one
incoming edge from a Trigger whose source output port has declared type
Event; and if the earlier pipeline stages pass while some Action node lacks
such an edge, `validate` returns `ActionNotGated` naming an Action node that
lacks one. -/
theorem c7_action_gating (g : ExpandedGraph) (catalog : PrimitiveCatalog)
    (hnd : (g.nodes.map (fun p => p.1)).Nodup) :
    (∀ G, validate g catalog = some (.ok G) →
      ∀ p ∈ G.nodes, p.2.kind = PrimitiveKind.Action → gated G.nodes G.edges p.1)
    ∧ (∀ ns es topo, attach_metadata catalog g.nodes = .ok ns →
        map_edges g.edges = .ok es →
        topological_sort ns es = some (.ok topo) →
        enforce_wiring_matrix ns es = .ok () →
        enforce_required_inputs es ns = .ok () →
        enforce_types ns es = .ok () →
        (∃ p ∈ ns, p.2.kind = PrimitiveKind.Action ∧ ¬ gated ns es p.1) →
        ∃ n vn, validate g catalog = some (.error (.ActionNotGated n))
          ∧ (n, vn) ∈ ns ∧ vn.kind = PrimitiveKind.Action ∧ ¬ gated ns es n) := by
  constructor
  · intro G h p hp hk
    obtain ⟨_, _, _, hgate⟩ := validate_ok_inv g catalog G h
    unfold enforce_action_gating at hgate
    cases hf : G.nodes.find? (fun p => p.2.kind == PrimitiveKind.Action
        && !((gated_actions G.nodes G.edges).contains p.1)) with
    | some q => rw [hf] at hgate; exact Except.noConfusion hgate
    | none =>
      have hnp := List.find?_eq_none.mp hf p hp
      simp only [Bool.and_eq_true, Bool.not_eq_true', beq_iff_eq, not_and] at hnp
      have hcont := hnp hk
      have hctrue : (gated_actions G.nodes G.edges).contains p.1 = true := by
        cases hcb : (gated_actions G.nodes G.edges).contains p.1
        · exact absurd hcb hcont
        · rfl
      exact mem_gated_actions_gated G.nodes G.edges p.1
        ((contains_iff_mem_str _ _).mp hctrue)
  · intro ns es topo ha hm ht hw hr hy hex
    have hkeys := attach_metadata_keys catalog g.nodes ns ha
    have hnd' : (ns.map (fun p => p.1)).Nodup := by rw [hkeys]; exact hnd
    have hgate : ∃ q, ns.find? (fun p => p.2.kind == PrimitiveKind.Action
        && !((gated_actions ns es).contains p.1)) = some q := by
      obtain ⟨p, hp, hk, hng⟩ := hex
      cases hf : ns.find? (fun p => p.2.kind == PrimitiveKind.Action
          && !((gated_actions ns es).contains p.1)) with
      | some q => exact ⟨q, rfl⟩
      | none =>
        exfalso
        have hnp := List.find?_eq_none.mp hf p hp
        simp only [Bool.and_eq_true, Bool.not_eq_true', beq_iff_eq, not_and] at hnp
        have hcont := hnp hk
        apply hng
        apply mem_gated_actions_gated
        have hctrue : (gated_actions ns es).contains p.1 = true := by
          cases hcb : (gated_actions ns es).contains p.1
          · exact absurd hcb hcont
          · rfl
        exact (contains_iff_mem_str _ _).mp hctrue
    obtain ⟨q, hf⟩ := hgate
    have hqmem := List.mem_of_find?_eq_some hf
    have hqp := List.find?_some hf
    simp only [Bool.and_eq_true, Bool.not_eq_true', beq_iff_eq] at hqp
    have hqng : ¬ gated ns es q.1 := by
      intro hgat
      obtain ⟨e, he, hto, src, hsrc, hst, om, ho, hov⟩ := hgat
      have htl : alookup ns e.to_.node_id = some q.2 := by
        rw [hto]
        exact alookup_of_mem_nodup ns q.1 q.2 hnd' (by simpa using hqmem)
      have hge : gating_edge ns e = true := (gating_edge_eq_true ns e).mpr
        ⟨q.2, htl, hqp.1, src, hsrc, hst, om, ho, hov⟩
      have : q.1 ∈ gated_actions ns es :=
        (gated_actions_mem ns es q.1).mpr ⟨e, he, hge, hto⟩
      rw [(contains_iff_mem_str _ _).mpr this] at hqp
      exact Bool.noConfusion hqp.2
    refine ⟨q.1, q.2, ?_, by simpa using hqmem, hqp.1, hqng⟩
    unfold validate
    rw [ha]
    simp only
    rw [hm]
    simp only
    rw [ht]
    simp only
    rw [hw]
    simp only
    rw [hr]
    simp only
    rw [hy]
    simp only
    unfold enforce_action_gating
    rw [hf]

theorem c7_action_gating_witness :
    gated c7_validated.nodes c7_validated.edges "a" :=
  (c7_action_gating c7_graph c7_catalog (by decide)).1 c7_validated rfl
    ("a", { runtime_id := "a"
            impl_id := "act"
            version := "v1"
            kind := .Action
            inputs := [{ name := "event", value_type := .Event, required := true }]
            outputs := [("outcome", { value_type := .Event, cardinality := .Single })]
            parameters := [] })
    (by simp [c7_validated]) rfl


/-!
Part 4 models the action registry (crates/runtime/src/action/mod.rs and
registry.rs).  A boxed `ActionPrimitive` is represented by its manifest (the
only part `register` consults); the registry store is an association list.
The action crate's own `ParameterType`/`ParameterValue` are structurally
identical to the cluster ones and are reused.
-/

inductive ActionKind
  | Action
deriving DecidableEq, Repr

inductive ActionValueType
  | Event
  | Number
  | Bool
  | String
deriving DecidableEq, Repr

inductive ActionCardinality
  | Single
deriving DecidableEq, Repr

structure InputSpec where
  name : String
  value_type : ActionValueType
  required : Bool
  cardinality : ActionCardinality
deriving DecidableEq, Repr

structure OutputSpec where
  name : String
  value_type : ActionValueType
deriving DecidableEq, Repr

structure ExecutionSpec where
  deterministic : Bool
  retryable : Bool
deriving DecidableEq, Repr

structure StateSpec where
  allowed : Bool
deriving DecidableEq, Repr

structure ActionParameterSpec where
  name : String
  value_type : ParameterType
  default : Option ParameterValue
  bounds : Option String

structure ActionPrimitiveManifest where
  id : String
  version : String
  kind : ActionKind
  inputs : List InputSpec
  outputs : List OutputSpec
  parameters : List ActionParameterSpec
  execution : ExecutionSpec
  state : StateSpec
  side_effects : Bool

inductive ActionValidationError
  | WrongKind (expected : ActionKind) (got : ActionKind)
  | SideEffectsRequired
  | NonDeterministicExecution
  | RetryNotAllowed
  | StateNotAllowed
  | DuplicateId (id : String)
  | EventInputRequired
  | InvalidInputType (input : String) (expected : ActionValueType) (got : ActionValueType)
  | InvalidOutputType (output : String) (expected : ActionValueType) (got : ActionValueType)
  | MissingRequiredInput (input : String)
  | UndeclaredInput (node : String) (input : String)
  | UndeclaredOutput (primitive : String) (output : String)
  | MissingDeclaredOutput (primitive : String) (output : String)
  | UndeclaredParameter (node : String) (parameter : String)
  | InvalidParameterType (parameter : String) (expected : ParameterType) (got : ParameterType)
  | UnknownPrimitive (id : String)
  | CycleDetected
  | MissingNode (node : String)
  | MissingOutput (node : String) (output : String)
  | ActionChainingNotAllowed (node : String) (input : String)

def validate_outputs (outputs : List OutputSpec) : Except ActionValidationError Unit :=
  match outputs with
  | [output] =>
    if output.name ≠ "outcome" ∨ output.value_type ≠ ActionValueType.Event then
      .error (.InvalidOutputType output.name ActionValueType.Event output.value_type)
    else .ok ()
  | _ => .error (.UndeclaredOutput "action" "expected exactly one outcome event")

def validate_manifest (manifest : ActionPrimitiveManifest) :
    Except ActionValidationError Unit :=
  if manifest.kind ≠ ActionKind.Action then
    .error (.WrongKind ActionKind.Action manifest.kind)
  else if !manifest.side_effects then .error .SideEffectsRequired
  else if manifest.execution.retryable then .error .RetryNotAllowed
  else if !manifest.execution.deterministic then .error .NonDeterministicExecution
  else if manifest.state.allowed then .error .StateNotAllowed
  else if !(manifest.inputs.any (fun input => input.value_type == ActionValueType.Event))
    then .error .EventInputRequired
  else validate_outputs manifest.outputs

/-- `ActionRegistry::register`; returns the registry after the call together
with the error, if any (on error the registry is returned unchanged, as the
Rust method only inserts after all checks pass). -/
def register (manifest : ActionPrimitiveManifest)
    (primitives : List (String × ActionPrimitiveManifest)) :
    List (String × ActionPrimitiveManifest) × Option ActionValidationError :=
  match validate_manifest manifest with
  | .error e => (primitives, some e)
  | .ok _ =>
    if (primitives.map (fun p => p.1)).contains manifest.id then
      (primitives, some (.DuplicateId manifest.id))
    else ((manifest.id, manifest) :: primitives, none)

def c9_two_event_manifest : ActionPrimitiveManifest :=
  { id := "act2"
    version := "v1"
    kind := .Action
    inputs := [{ name := "event_a", value_type := .Event, required := true,
                 cardinality := .Single },
               { name := "event_b", value_type := .Event, required := true,
                 cardinality := .Single }]
    outputs := [{ name := "outcome", value_type := .Event }]
    parameters := []
    execution := { deterministic := true, retryable := false }
    state := { allowed := false }
    side_effects := true }

/-- C9 counterexample: a manifest with two Event-typed inputs (differing from
one) that satisfies the other Action rules is accepted and registered — the
code only requires at least one Event input (`EventInputRequired` uses
`any`), not exactly one. -/
theorem c9_action_registration_counterexample :
    (c9_two_event_manifest.inputs.filter
      (fun i => i.value_type == ActionValueType.Event)).length = 2
    ∧ (2 : Nat) ≠ 1
    ∧ validate_manifest c9_two_event_manifest = .ok ()
    ∧ (register c9_two_event_manifest []).2 = none
    ∧ (register c9_two_event_manifest []).1 = [("act2", c9_two_event_manifest)] :=
  ⟨rfl, by decide, rfl, rfl, rfl⟩

def c9_no_event_manifest : ActionPrimitiveManifest :=
  { id := "act0"
    version := "v1"
    kind := .Action
    inputs := [{ name := "flag", value_type := .Bool, required := true,
                 cardinality := .Single }]
    outputs := [{ name := "outcome", value_type := .Event }]
    parameters := []
    execution := { deterministic := true, retryable := false }
    state := { allowed := false }
    side_effects := true }

/-- C9 (amended): `ActionRegistry::register` (via `validate_manifest`)
accepts an action manifest only if, among the other kind rules, it declares
at least one input of type Event; every manifest with zero Event-typed
inputs is rejected (with `EventInputRequired` when the earlier kind rules
pass) and the implementation is not added. -/
theorem c9_action_registration :
    (∀ m, validate_manifest m = .ok () →
      ∃ i ∈ m.inputs, i.value_type = ActionValueType.Event)
    ∧ (∀ m reg, (∀ i ∈ m.inputs, i.value_type ≠ ActionValueType.Event) →
        ∃ e, register m reg = (reg, some e))
    ∧ (∀ m reg, m.kind = ActionKind.Action → m.side_effects = true →
        m.execution.retryable = false → m.execution.deterministic = true →
        m.state.allowed = false →
        (∀ i ∈ m.inputs, i.value_type ≠ ActionValueType.Event) →
        register m reg = (reg, some .EventInputRequired))
    ∧ (∀ m reg r e, register m reg = (r, some e) → r = reg) := by
  have hany : ∀ (m : ActionPrimitiveManifest),
      (∀ i ∈ m.inputs, i.value_type ≠ ActionValueType.Event) →
      m.inputs.any (fun input => input.value_type == ActionValueType.Event) = false := by
    intro m hno
    cases hb : m.inputs.any (fun input => input.value_type == ActionValueType.Event)
    · rfl
    · obtain ⟨i, hi, hp⟩ := List.any_eq_true.mp hb
      rw [beq_iff_eq] at hp
      exact absurd hp (hno i hi)
  have hvm : ∀ (m : ActionPrimitiveManifest),
      (∀ i ∈ m.inputs, i.value_type ≠ ActionValueType.Event) →
      ∃ e, validate_manifest m = .error e := by
    intro m hno
    unfold validate_manifest
    by_cases h1 : m.kind ≠ ActionKind.Action
    · rw [if_pos h1]; exact ⟨_, rfl⟩
    · rw [if_neg h1]
      by_cases h2 : (!m.side_effects) = true
      · rw [if_pos h2]; exact ⟨_, rfl⟩
      · rw [if_neg h2]
        by_cases h3 : m.execution.retryable = true
        · rw [if_pos h3]; exact ⟨_, rfl⟩
        · rw [if_neg h3]
          by_cases h4 : (!m.execution.deterministic) = true
          · rw [if_pos h4]; exact ⟨_, rfl⟩
          · rw [if_neg h4]
            by_cases h5 : m.state.allowed = true
            · rw [if_pos h5]; exact ⟨_, rfl⟩
            · rw [if_neg h5]
              have h6 : (!(m.inputs.any
                  (fun input => input.value_type == ActionValueType.Event))) = true := by
                rw [hany m hno]
                rfl
              rw [if_pos h6]
              exact ⟨_, rfl⟩
  refine ⟨?_, ?_, ?_, ?_⟩
  · intro m h
    unfold validate_manifest at h
    split at h
    · exact absurd h (by simp)
    split at h
    · exact absurd h (by simp)
    split at h
    · exact absurd h (by simp)
    split at h
    · exact absurd h (by simp)
    split at h
    · exact absurd h (by simp)
    split at h
    · exact absurd h (by simp)
    rename_i hno
    have hb : m.inputs.any (fun input => input.value_type == ActionValueType.Event)
        = true := by
      cases hb : m.inputs.any (fun input => input.value_type == ActionValueType.Event)
      · rw [hb] at hno
        exact absurd rfl hno
      · rfl
    obtain ⟨i, hi, hp⟩ := List.any_eq_true.mp hb
    rw [beq_iff_eq] at hp
    exact ⟨i, hi, hp⟩
  · intro m reg hno
    obtain ⟨e, he⟩ := hvm m hno
    refine ⟨e, ?_⟩
    unfold register
    rw [he]
  · intro m reg h1 h2 h3 h4 h5 hno
    have hv : validate_manifest m = .error .EventInputRequired := by
      unfold validate_manifest
      rw [if_neg (fun hcontra => hcontra h1), if_neg (by rw [h2]; simp),
        if_neg (by rw [h3]; simp), if_neg (by rw [h4]; simp),
        if_neg (by rw [h5]; simp), if_pos (by rw [hany m hno]; rfl)]
    unfold register
    rw [hv]
  · intro m reg r e h
    unfold register at h
    cases hv : validate_manifest m with
    | error e0 =>
      rw [hv] at h
      simp only [Prod.mk.injEq] at h
      exact h.1.symm
    | ok u =>
      rw [hv] at h
      simp only at h
      by_cases hc : (reg.map (fun p => p.1)).contains m.id = true
      · rw [if_pos hc] at h
        simp only [Prod.mk.injEq] at h
        exact h.1.symm
      · rw [if_neg hc] at h
        simp only [Prod.mk.injEq] at h
        exact absurd h.2 (by simp)

theorem c9_action_registration_witness :
    register c9_no_event_manifest []
      = ([], some ActionValidationError.EventInputRequired) :=
  c9_action_registration.2.2.1 c9_no_event_manifest [] rfl rfl rfl rfl rfl
    (by
      intro i hi
      simp only [c9_no_event_manifest, List.mem_singleton] at hi
      rw [hi]
      decide)

end Ergo
